import Mathlib

/-!
Verification of the reconciler core of the `my-react` repository against its
natural-language specification.  Each section shallowly embeds one part of the
TypeScript source (file and function names are kept where Lean allows) and the
theorems at the end settle the frozen claims C1..C10.

Conventions used throughout:
* JS bitset values (`Lane`, `Lanes`, `Flags`) are `Nat` with `|||`/`&&&`.
* A JS circular singly-linked update list whose stored pointer is the last
  update is represented by the `List` of its elements in traversal order,
  i.e. starting at `pending.next` (the first enqueued update) and ending at
  `pending` itself.
* `Object.is` on the opaque state values that flow through the queue is
  represented by decidable equality on the Lean type standing for the state.
-/

namespace RLanes

/-- `fiberLanes.ts`: lane constants. -/
def NoLane : Nat := 0

def NoLanes : Nat := 0

def SyncLane : Nat := 1

def InputContinuousLane : Nat := 2

def DefaultLane : Nat := 4

def TransitionLane : Nat := 8

def IdleLane : Nat := 16

/-- `fiberLanes.ts` `mergeLanes`: bitwise union of two lane sets. -/
def mergeLanes (laneA laneB : Nat) : Nat := laneA ||| laneB

/-- `fiberLanes.ts` `isSubsetOfLanes`: `(set & subset) === subset`. -/
def isSubsetOfLanes (set subset : Nat) : Bool := set &&& subset == subset

/-- `fiberLanes.ts` `includeSomeLanes`: `(set & subset) !== NoLanes`. -/
def includeSomeLanes (set subset : Nat) : Bool := !(set &&& subset == NoLanes)

/-- `fiberLanes.ts` `removeLanes`: `set & ~subset`, on the 32-bit lane words
(all lane constants fit far below 2^32, so plain `Nat` difference of bits). -/
def removeLanes (set subset : Nat) : Nat := set &&& (((2 ^ 32) - 1) ^^^ subset)

end RLanes

namespace RFlags

/-- `fiberFlags.ts` flag constants (final revision, `src/unnamed/part_007`). -/
def NoFlags : Nat := 0

def Placement : Nat := 1

def UpdateF : Nat := 2

def ChildDeletion : Nat := 4

def PassiveEffect : Nat := 8

def RefF : Nat := 16

def Visibility : Nat := 32

def DidCapture : Nat := 64

def MutationMask : Nat := Placement ||| UpdateF ||| ChildDeletion ||| RefF ||| Visibility

def LayoutMask : Nat := RefF

def PassiveMask : Nat := PassiveEffect ||| ChildDeletion

end RFlags

namespace UQ

/-- `shared/ReactTypes` `Action<State>`: either a replacement value or an
updater function (`basicStateReducer` distinguishes them with
`action instanceof Function`). -/
def Action (σ : Type) := σ ⊕ (σ → σ)

/-- `updateQueue.ts` (`src/unnamed/part_012`, lines 9-15) `Update<State>`.
The `hasEagerState : boolean` / `eagerState : State | null` pair is encoded as
one `Option`: `eager = some v` stands for `hasEagerState = true` with
`eagerState = v`.  The two fields are only ever written together
(`createUpdate` defaults both, `dispatchSetState` sets both), so no
information is lost.  The `next` pointer is implicit in the list encoding. -/
structure Upd (σ : Type) where
  action : Action σ
  lane : Nat
  eager : Option σ

/-- `updateQueue.ts` `basicStateReducer` (part_012 lines 114-125). -/
def basicStateReducer {σ : Type} (state : σ) (action : Action σ) : σ :=
  match action with
  | Sum.inr f => f state
  | Sum.inl v => v

/-- Result record of `processUpdateQueue`; `skippedLanes` records, in call
order, the `lane` of each clone passed to the `onSkipUpdate` callback (the
only use of the callback in the source is to read the clone's lane). -/
structure ProcessResult (σ : Type) where
  memoizedState : σ
  baseState : σ
  baseQueue : List (Upd σ)
  skippedLanes : List Nat

/-- The `do ... while` loop body of `processUpdateQueue`
(part_012 lines 181-216), walking the pending list in traversal order.
State threaded through: `newState`, `newBaseState`, the new base queue built
so far (`[]` corresponds to `newBaseQueueFirst === null`), and the lanes
passed to `onSkipUpdate`.  `baseState` is the unchanged function parameter;
the branch for a sufficient-priority update without an eager state computes
`basicStateReducer baseState action` exactly as the source line 212 does. -/
def processLoop {σ : Type} (baseState : σ) (renderLane : Nat) :
    List (Upd σ) → σ → σ → List (Upd σ) → List Nat →
    σ × σ × List (Upd σ) × List Nat
  | [], newState, newBaseState, bq, sk => (newState, newBaseState, bq, sk)
  | u :: rest, newState, newBaseState, bq, sk =>
    if ¬ RLanes.isSubsetOfLanes renderLane u.lane then
      let clone : Upd σ := { action := u.action, lane := u.lane, eager := none }
      if bq.isEmpty then
        processLoop baseState renderLane rest newState newState [clone] (sk ++ [clone.lane])
      else
        processLoop baseState renderLane rest newState newBaseState (bq ++ [clone])
          (sk ++ [clone.lane])
    else
      let bq2 := if bq.isEmpty then bq
        else bq ++ [{ action := u.action, lane := RLanes.NoLane, eager := none }]
      let ns2 :=
        match u.eager with
        | some v => v
        | none => basicStateReducer baseState u.action
      processLoop baseState renderLane rest ns2 newBaseState bq2 sk

/-- `updateQueue.ts` `processUpdateQueue` (part_012 lines 150-229).
`pending` is the circular pending list in traversal order (first enqueued
update first); the source receives the pointer to the last update and starts
at its `next`. -/
def processUpdateQueue {σ : Type} (baseState : σ) (pending : List (Upd σ))
    (renderLane : Nat) : ProcessResult σ :=
  match pending with
  | [] =>
    { memoizedState := baseState, baseState := baseState, baseQueue := [], skippedLanes := [] }
  | _ =>
    let r := processLoop baseState renderLane pending baseState baseState [] []
    { memoizedState := r.1
      baseState := if r.2.2.1.isEmpty then r.1 else r.2.1
      baseQueue := r.2.2.1
      skippedLanes := r.2.2.2 }

/-- The specification's fold (P3): apply the updates left-to-right over the
initial state with each update's reducer. -/
def foldUpdates {σ : Type} (init : σ) (us : List (Upd σ)) : σ :=
  us.foldl (fun s u => basicStateReducer s u.action) init

/-- Per-hook persisted state, `fiberHooks.ts` `Hook` fields used by
`updateState` (`memoizedState`, `baseState`, `baseQueue`). -/
structure HookS (σ : Type) where
  memoizedState : σ
  baseState : σ
  baseQueue : List (Upd σ)

/-- Result of one `updateState` pass: the new hook record, the lanes merged
back into the owning fiber by the `onSkipUpdate` callback, and whether
`markWipReceivedUpdate` was called (the `Object.is` comparison on line 405 of
`fiberHooks.ts`). -/
structure UpdateStateResult (σ : Type) where
  hook : HookS σ
  skippedFiberLanes : Nat
  receivedUpdate : Bool

/-- `fiberHooks.ts` `updateState` (lines 353-416), state-computation part.
`pending` is the newly enqueued circular list in traversal order; splicing it
after the retained `baseQueue` (lines 367-386: `b0..b2, p0..p1, p2`) is list
concatenation under the list encoding.  The `onSkipUpdate` callback merges
each skipped lane into the fiber's `lanes`. -/
def updateState {σ : Type} [DecidableEq σ] (hook : HookS σ) (pending : List (Upd σ))
    (renderLane : Nat) : UpdateStateResult σ :=
  let baseQueue := hook.baseQueue ++ pending
  if baseQueue.isEmpty then
    { hook := hook, skippedFiberLanes := RLanes.NoLanes, receivedUpdate := false }
  else
    let r := processUpdateQueue hook.baseState baseQueue renderLane
    { hook :=
        { memoizedState := r.memoizedState
          baseState := r.baseState
          baseQueue := r.baseQueue }
      skippedFiberLanes := r.skippedLanes.foldl RLanes.mergeLanes RLanes.NoLanes
      receivedUpdate := decide (hook.memoizedState ≠ r.memoizedState) }

end UQ

namespace Hooks

open UQ RLanes

/-- `hookEffectTags.ts` is referenced by `fiberHooks.ts` and `commitWork.ts`
but its definition file is not among the sources.  Modelled from the spec:
the Effect Record `tag` is a "bitset: passive / has-pending-run", so the two
tags are two distinct bits. -/
def HookHasEffect : Nat := 1

/-- See `HookHasEffect`; the passive-effect kind bit. -/
def Passive : Nat := 2

/-- The part of `FCUpdateQueue<State>` used by `dispatchSetState`:
the shared pending circular list (in traversal order) and
`lastRenderedState`. -/
structure FCQueue (σ : Type) where
  pending : List (Upd σ)
  lastRenderedState : σ

/-- The lane bookkeeping of the fiber owning the hook: `fiber.lanes` and
`fiber.alternate.lanes` (`none` when `fiber.alternate === null`). -/
structure DispatchFiber where
  lanes : Nat
  alternateLanes : Option Nat

/-- `updateQueue.ts` `enqueueUpdate` (part_012 lines 74-100): splice the
update into the circular pending list (append, under the list encoding) and
merge `lane` into `fiber.lanes` and, when the alternate exists, into
`alternate.lanes`. -/
def enqueueUpdate {σ : Type} (q : FCQueue σ) (u : Upd σ) (fiber : DispatchFiber)
    (lane : Nat) : FCQueue σ × DispatchFiber :=
  ({ q with pending := q.pending ++ [u] },
   { lanes := mergeLanes fiber.lanes lane
     alternateLanes := fiber.alternateLanes.map (fun l => mergeLanes l lane) })

/-- Result of one dispatch: the updated queue and fiber lane bookkeeping and,
when `scheduleUpdateOnFiber` was called, the lane it was called with. -/
structure DispatchResult (σ : Type) where
  queue : FCQueue σ
  fiber : DispatchFiber
  scheduled : Option Nat

/-- `fiberHooks.ts` `dispatchSetState` (lines 658-693).  `lane` is the value
returned by `requestUpdateLane()`.  The eager branch is taken when neither the
fiber nor its alternate has pending lanes; it computes the eager state with
`basicStateReducer` from `lastRenderedState`, records it on the update, and on
an `Object.is` hit enqueues at `NoLane` without scheduling. -/
def dispatchSetState {σ : Type} [DecidableEq σ] (fiber : DispatchFiber)
    (q : FCQueue σ) (action : Action σ) (lane : Nat) : DispatchResult σ :=
  let update : Upd σ := { action := action, lane := lane, eager := none }
  if fiber.lanes == NoLanes && (fiber.alternateLanes.getD NoLanes == NoLanes) then
    let currentState := q.lastRenderedState
    let eagarState := basicStateReducer currentState action
    let update := { update with eager := some eagarState }
    if currentState = eagarState then
      let r := enqueueUpdate q update fiber NoLane
      { queue := r.1, fiber := r.2, scheduled := none }
    else
      let r := enqueueUpdate q update fiber lane
      { queue := r.1, fiber := r.2, scheduled := some lane }
  else
    let r := enqueueUpdate q update fiber lane
    { queue := r.1, fiber := r.2, scheduled := some lane }

/-- Dispatch as the specification describes it without the eager-state
optimization, for the C8 refinement comparison: always enqueue the plain
update at its lane and schedule a re-render at that lane. -/
def dispatchSetStateNoEager {σ : Type} (fiber : DispatchFiber) (q : FCQueue σ)
    (action : Action σ) (lane : Nat) : DispatchResult σ :=
  let update : Upd σ := { action := action, lane := lane, eager := none }
  let r := enqueueUpdate q update fiber lane
  { queue := r.1, fiber := r.2, scheduled := some lane }

/-- Erase the eager annotations of a queue (what the queue would hold had
every update been enqueued by the non-eager dispatch). -/
def stripEager {σ : Type} (us : List (Upd σ)) : List (Upd σ) :=
  us.map (fun u => { u with eager := none })

/-- The invariant `dispatchSetState` maintains for the pending queue: every
eager annotation was computed by `basicStateReducer` from
`lastRenderedState = s` (the state the queue will next be processed from). -/
def EagerOk {σ : Type} (s : σ) (us : List (Upd σ)) : Prop :=
  ∀ u ∈ us, ∀ v, u.eager = some v → v = basicStateReducer s u.action

end Hooks

namespace HookDeps

/-- `fiberHooks.ts` `areHookInputsEqual` (lines 256-267).  Dependency values
are opaque; `Object.is` on them is decidable equality on `α`.  A JS deps value
`null` is `none`.  The index loop `i < prevDeps.length && i < nextDeps.length`
compares exactly the common prefix of the two arrays, i.e. their zip. -/
def areHookInputsEqual {α : Type} [DecidableEq α]
    (nextDeps prevDeps : Option (List α)) : Bool :=
  match prevDeps, nextDeps with
  | none, _ => false
  | some _, none => false
  | some prev, some next => (List.zip prev next).all (fun p => p.1 == p.2)

/-- Effect record fields used by `updateEffect` (`fiberHooks.ts` `Effect`):
callbacks are opaque identities (`create`), `destroy` is absent until a create
callback has returned one. -/
structure EffectRec (α : Type) where
  tag : Nat
  create : Nat
  destroy : Option Nat
  deps : Option (List α)

/-- `fiberHooks.ts` `updateEffect` (lines 221-247), the `currentHook !== null`
body: compare the new deps with the previous effect record's deps; on a match
push a `Passive`-only effect (not re-flagged); otherwise flag the fiber with
`PassiveEffect` and push a `Passive | HookHasEffect` effect.  Returns the
pushed effect record and whether the fiber was flagged. -/
def updateEffect {α : Type} [DecidableEq α] (prevEffect : EffectRec α)
    (create : Nat) (nextDeps : Option (List α)) : EffectRec α × Bool :=
  let destroy := prevEffect.destroy
  match nextDeps with
  | some _ =>
    if areHookInputsEqual nextDeps prevEffect.deps then
      ({ tag := Hooks.Passive, create := create, destroy := destroy, deps := nextDeps }, false)
    else
      ({ tag := Hooks.Passive ||| Hooks.HookHasEffect, create := create, destroy := destroy,
         deps := nextDeps }, true)
  | none =>
    ({ tag := Hooks.Passive ||| Hooks.HookHasEffect, create := create, destroy := destroy,
       deps := nextDeps }, true)

/-- `fiberHooks.ts` `updateMemo` (lines 883-897).  `prev` is the previous
`[value, deps]` pair from the hook's `memoizedState`; `nextCreate` is the
factory.  Returns the value handed back to the component, whether
`nextCreate` was invoked, and the new stored pair. -/
def updateMemo {β α : Type} [DecidableEq β] (prev : α × Option (List β))
    (nextCreate : Unit → α) (nextDeps : Option (List β)) :
    α × Bool × (α × Option (List β)) :=
  match nextDeps with
  | some _ =>
    if areHookInputsEqual nextDeps prev.2 then
      (prev.1, false, prev)
    else
      let nextValue := nextCreate ()
      (nextValue, true, (nextValue, nextDeps))
  | none =>
    let nextValue := nextCreate ()
    (nextValue, true, (nextValue, nextDeps))

end HookDeps

namespace HookCtx

/-- Errors thrown synchronously by the hook machinery.  The source messages
are Chinese strings; they are represented by named constructors:
* `hookOutsideDispatcher`: `currentDispatcher.ts` `resolveDispatcher`,
  thrown when `currentDispatcher.current === null`;
* `hookOutsideComponent`: `fiberHooks.ts`, thrown by
  `mountWorkInProgressHook`/`updateWorkInProgressHook` when
  `currentlyRenderingFiber === null` at the list-linking step;
* `typeErrorNullAlternate`: the JS `TypeError` raised by
  `updateWorkInProgressHook` line 440 when it reads
  `(currentlyRenderingFiber as FiberNode).alternate` and
  `currentlyRenderingFiber` is `null`;
* `moreHooksThanPrevRender`: `updateWorkInProgressHook` lines 464-472, thrown
  when `nextCurrentHook === null` (this render calls more hooks than the
  previous render of the instance did). -/
inductive JsError where
  | hookOutsideDispatcher
  | hookOutsideComponent
  | typeErrorNullAlternate
  | moreHooksThanPrevRender
deriving DecidableEq, Repr

/-- A previous-render hook record; its content (`memoizedState`,
`updateQueue`, `baseState`, `baseQueue`) is opaque for the counting claim and
collapsed into one payload. -/
structure HookRec where
  payload : Nat
deriving DecidableEq, Repr

/-- `currentDispatcher.ts` `resolveDispatcher`: throw when no dispatcher is
installed (no function component is being rendered and none has ever been),
else return the installed dispatcher (here opaque). -/
def resolveDispatcher {δ : Type} (d : Option δ) : Except JsError δ :=
  match d with
  | none => Except.error JsError.hookOutsideDispatcher
  | some t => Except.ok t

/-- `fiberHooks.ts` `mountWorkInProgressHook` (lines 699-726): create a fresh
hook record and link it; the first hook call of a component throws when
`currentlyRenderingFiber === null`.  `crf` is the rendering fiber (opaque),
`wip` the work-in-progress hook list built so far (its last element is the
`workInProgressHook` cursor; `[]` corresponds to the cursor being `null`). -/
def mountWorkInProgressHook (crf : Option Nat) (wip : List HookRec) :
    Except JsError (List HookRec) :=
  let hook : HookRec := { payload := 0 }
  match wip with
  | [] =>
    match crf with
    | none => Except.error JsError.hookOutsideComponent
    | some _ => Except.ok [hook]
  | _ => Except.ok (wip ++ [hook])

/-- Cursor state threaded between successive `updateWorkInProgressHook` calls
of one component render: `started` is `currentHook !== null`; `remaining` is
the suffix of the previous hook list after the record `currentHook` points at
(so `currentHook.next` is its head); `wip` as in `mountWorkInProgressHook`. -/
structure UpdHookState where
  started : Bool
  remaining : List HookRec
  wip : List HookRec
deriving DecidableEq, Repr

/-- `fiberHooks.ts` `updateWorkInProgressHook` (lines 430-504).
`crf` is `currentlyRenderingFiber`: `none` when no component is being
rendered; `some alt` carries the fiber's `alternate` — `none` when
`alternate === null`, `some hooks` its hook list (`current.memoizedState`,
the empty list standing for a `null` list head). -/
def updateWorkInProgressHook (crf : Option (Option (List HookRec)))
    (st : UpdHookState) : Except JsError UpdHookState := do
  let (nextCurrentHook, rest) ←
    if !st.started then
      match crf with
      | none =>
        -- `const current = (currentlyRenderingFiber as FiberNode).alternate`
        -- dereferences `null` and raises a TypeError
        Except.error JsError.typeErrorNullAlternate
      | some alt =>
        match alt with
        | some hooks => Except.ok (hooks.head?, hooks.tail)
        | none => Except.ok ((none : Option HookRec), [])
    else
      Except.ok (st.remaining.head?, st.remaining.tail)
  match nextCurrentHook with
  | none => Except.error JsError.moreHooksThanPrevRender
  | some h =>
    -- `newHook` copies the current hook's fields
    let newHook : HookRec := { payload := h.payload }
    match st.wip with
    | [] =>
      match crf with
      | none => Except.error JsError.hookOutsideComponent
      | some _ =>
        Except.ok { started := true, remaining := rest, wip := [newHook] }
    | _ =>
      Except.ok { started := true, remaining := rest, wip := st.wip ++ [newHook] }

/-- Iterate `updateWorkInProgressHook` for the successive hook calls of one
update render of a component whose previous render produced `prevHooks`. -/
def runUpdateHooks (prevHooks : List HookRec) :
    Nat → UpdHookState → Except JsError UpdHookState
  | 0, st => Except.ok st
  | k + 1, st =>
    (updateWorkInProgressHook (some (some prevHooks)) st).bind
      (runUpdateHooks prevHooks k)

/-- An update render of the component performing `k` hook calls, starting
from a fresh cursor state (`renderWithHooks` resets the module cursors). -/
def updateRenderHooks (prevHooks : List HookRec) (k : Nat) :
    Except JsError UpdHookState :=
  runUpdateHooks prevHooks k { started := false, remaining := [], wip := [] }

end HookCtx

namespace PE

/-- An effect record as the commit phase sees it (`fiberHooks.ts` `Effect`):
`create` is the create callback's identity (`none` when not a function),
`createRet` the destroy callback that invoking `create` returns (`none` when
it returns nothing), `destroy` the currently stored destroy callback. -/
structure EffectC where
  tag : Nat
  create : Option Nat
  createRet : Option Nat
  destroy : Option Nat
deriving DecidableEq, Repr

/-- The observable callback invocations of a passive-effect flush. -/
inductive PEvent where
  | destroyEv (cb : Nat)
  | createEv (cb : Nat)
deriving DecidableEq, Repr

/-- The filter of `commitHookEffectList` (commitWork.ts lines 352-365):
`(effect.tag & flags) === flags`. -/
def matchesTag (flags : Nat) (e : EffectC) : Bool := e.tag &&& flags == flags

/-- `commitHookEffectListUnmount` (commitWork.ts 378-386): call `destroy`
when it is a function, for every effect matching `flags`; the trace of the
calls in list order.  (It also strips `HookHasEffect` from the tag, which no
later pass of the same flush observes: the unmount and update lists hold
effects of different fibers.) -/
def commitHookEffectListUnmountTrace (flags : Nat) (effects : List EffectC) :
    List PEvent :=
  effects.flatMap (fun e =>
    if matchesTag flags e then
      match e.destroy with
      | some d => [PEvent.destroyEv d]
      | none => []
    else [])

/-- `commitHookEffectListDestroy` (commitWork.ts 401-408): like the unmount
pass but leaving tags untouched. -/
def commitHookEffectListDestroyTrace (flags : Nat) (effects : List EffectC) :
    List PEvent :=
  effects.flatMap (fun e =>
    if matchesTag flags e then
      match e.destroy with
      | some d => [PEvent.destroyEv d]
      | none => []
    else [])

/-- `commitHookEffectListCreate` (commitWork.ts 422-429): call `create` when
it is a function (storing its return value as the new `destroy`); the trace
of the calls in list order. -/
def commitHookEffectListCreateTrace (flags : Nat) (effects : List EffectC) :
    List PEvent :=
  effects.flatMap (fun e =>
    if matchesTag flags e then
      match e.create with
      | some c => [PEvent.createEv c]
      | none => []
    else [])

/-- `fiber.ts` `PendingPassiveEffects`: the two lists collected during the
mutation sub-phase; each entry is one fiber's circular effect list, in order
from `lastEffect.next`. -/
structure PendingPassiveEffects where
  unmount : List (List EffectC)
  update : List (List EffectC)

/-- `workLoop.ts` `flushPassiveEffects` (lines 819-844), as the trace of
callback invocations: the unmount pass with flag `Passive`, then the destroy
pass over the update list with `Passive | HookHasEffect`, then the create
pass over the update list with the same mask. -/
def flushPassiveEffectsTrace (p : PendingPassiveEffects) : List PEvent :=
  p.unmount.flatMap (commitHookEffectListUnmountTrace Hooks.Passive)
    ++ p.update.flatMap
        (commitHookEffectListDestroyTrace (Hooks.Passive ||| Hooks.HookHasEffect))
    ++ p.update.flatMap
        (commitHookEffectListCreateTrace (Hooks.Passive ||| Hooks.HookHasEffect))

/-- The destroy-only front segment of a flush trace (the unmount pass
followed by the destroy pass). -/
def destroyFront (p : PendingPassiveEffects) : List PEvent :=
  p.unmount.flatMap (commitHookEffectListUnmountTrace Hooks.Passive)
    ++ p.update.flatMap
        (commitHookEffectListDestroyTrace (Hooks.Passive ||| Hooks.HookHasEffect))

end PE

namespace CF

/-- `workTags.ts` tag constants used by child reconciliation. -/
def FunctionComponent : Nat := 0

def HostRoot : Nat := 3

def HostComponent : Nat := 5

def HostText : Nat := 6

def Fragment : Nat := 7

/-- A fiber node as child reconciliation and the bail-out clone observe it.
`typ` and `pendingProps`/`memoizedProps` are object identities (`Nat`);
`alternate` is the paired node of the other tree (`none` when
`fiber.alternate === null`).  The chain structure (`child`/`sibling`) is kept
outside the node, as the Lean list holding a sibling chain in order; fields
this development never reads (`stateNode`, `updateQueue`, `memoizedState`,
`ref`, `deletions`, `dependencies`) are omitted. -/
inductive FiberL where
  | mk (tag : Nat) (typ : Nat) (key : Option String) (index : Nat)
      (pendingProps : Nat) (memoizedProps : Option Nat)
      (flags : Nat) (subtreeFlags : Nat)
      (lanes : Nat) (childLanes : Nat)
      (alternate : Option FiberL) : FiberL

def FiberL.tag : FiberL → Nat
  | .mk t _ _ _ _ _ _ _ _ _ _ => t

def FiberL.typ : FiberL → Nat
  | .mk _ ty _ _ _ _ _ _ _ _ _ => ty

def FiberL.key : FiberL → Option String
  | .mk _ _ k _ _ _ _ _ _ _ _ => k

def FiberL.index : FiberL → Nat
  | .mk _ _ _ i _ _ _ _ _ _ _ => i

def FiberL.pendingProps : FiberL → Nat
  | .mk _ _ _ _ p _ _ _ _ _ _ => p

def FiberL.memoizedProps : FiberL → Option Nat
  | .mk _ _ _ _ _ m _ _ _ _ _ => m

def FiberL.flags : FiberL → Nat
  | .mk _ _ _ _ _ _ f _ _ _ _ => f

def FiberL.subtreeFlags : FiberL → Nat
  | .mk _ _ _ _ _ _ _ s _ _ _ => s

def FiberL.lanes : FiberL → Nat
  | .mk _ _ _ _ _ _ _ _ l _ _ => l

def FiberL.childLanes : FiberL → Nat
  | .mk _ _ _ _ _ _ _ _ _ c _ => c

def FiberL.alternate : FiberL → Option FiberL
  | .mk _ _ _ _ _ _ _ _ _ _ a => a

/-- The `FiberNode` constructor (`fiber.ts` lines 114-144): fresh node with
cleared links, flags and lanes.  `this.key = key || null` turns the falsy
empty-string key into `null`. -/
def mkFiberNode (tag : Nat) (pendingProps : Nat) (key : Option String) : FiberL :=
  FiberL.mk tag 0 (if key = some "" then none else key) 0 pendingProps none
    RFlags.NoFlags RFlags.NoFlags RLanes.NoLanes RLanes.NoLanes none

/-- `fiber.ts` `createWorkInProgress` (lines 263-306).  When the current node
has no alternate a fresh node is allocated (copying `tag`, `key`,
`stateNode`) and the pair is linked; else the existing alternate is reused
with `pendingProps` replaced and its effects cleared.  Both branches then copy
`type`, `child`, `memoizedProps`, `memoizedState`, `ref`, `lanes`,
`childLanes` and the dependencies from `current`.  In the heap the pair is
mutually linked; functionally the returned work-in-progress node carries
`alternate = some current`. -/
def createWorkInProgress (current : FiberL) (pendingProps : Nat) : FiberL :=
  match current.alternate with
  | none =>
    FiberL.mk current.tag current.typ current.key 0 pendingProps
      current.memoizedProps RFlags.NoFlags RFlags.NoFlags
      current.lanes current.childLanes (some current)
  | some wip =>
    FiberL.mk wip.tag current.typ wip.key wip.index pendingProps
      current.memoizedProps RFlags.NoFlags RFlags.NoFlags
      current.lanes current.childLanes (some current)

/-- A keyed element child of the reconciled array.  The modelled element
domain is host `REACT_ELEMENT_TYPE` elements (a `type` that is a host tag
string identity, never `REACT_FRAGMENT_TYPE`), with `props` an object
identity; text/fragment/nested-array children are outside this domain. -/
structure ChildElem where
  key : Option String
  typ : Nat
  props : Nat
deriving DecidableEq

/-- `fiber.ts` `createFiberFromElement` (lines 327-355) on a host element:
a fresh `HostComponent` fiber with the element's props and key, its `type`
set from the element. -/
def createFiberFromElement (element : ChildElem) : FiberL :=
  let fiber := mkFiberNode HostComponent element.props element.key
  FiberL.mk fiber.tag element.typ fiber.key fiber.index fiber.pendingProps
    fiber.memoizedProps fiber.flags fiber.subtreeFlags fiber.lanes
    fiber.childLanes fiber.alternate

/-- `childFibers.ts` `useFiber` (part_009 lines 420-425): clone via
`createWorkInProgress`, then reset `index` to 0 and detach the sibling. -/
def useFiber (fiber : FiberL) (pendingProps : Nat) : FiberL :=
  let clone := createWorkInProgress fiber pendingProps
  FiberL.mk clone.tag clone.typ clone.key 0 clone.pendingProps
    clone.memoizedProps clone.flags clone.subtreeFlags clone.lanes
    clone.childLanes clone.alternate

/-- The JS `Map<string | number, FiberNode>` key domain. -/
abbrev KeyU : Type := String ⊕ Nat

/-- `ExistingChildren`, as an insertion-ordered association list with JS
`Map` semantics. -/
abbrev EMap : Type := List (KeyU × FiberL)

def mapGet (m : EMap) (k : KeyU) : Option FiberL :=
  (m.find? (fun p => p.1 = k)).map (·.2)

def mapSet (m : EMap) (k : KeyU) (v : FiberL) : EMap :=
  if (m.find? (fun p => p.1 = k)).isSome then
    m.map (fun p => if p.1 = k then (k, v) else p)
  else
    m ++ [(k, v)]

def mapDelete (m : EMap) (k : KeyU) : EMap :=
  m.filter (fun p => ¬ p.1 = k)

def mapValues (m : EMap) : List FiberL := m.map (·.2)

/-- `reconcileChildrenArray` step 1 (part_009 lines 217-223): index the
current sibling chain by `key ?? index`. -/
def keyToUseOfFiber (f : FiberL) : KeyU :=
  match f.key with
  | some k => Sum.inl k
  | none => Sum.inr f.index

def buildExistingChildren (currentChildren : List FiberL) : EMap :=
  currentChildren.foldl (fun m c => mapSet m (keyToUseOfFiber c) c) []

/-- `childFibers.ts` `getElementKeyToUse` (part_009 lines 273-284) on the
modelled element domain: `element.key !== null ? element.key : index`. -/
def getElementKeyToUse (element : ChildElem) (index : Nat) : KeyU :=
  match element.key with
  | some k => Sum.inl k
  | none => Sum.inr index

/-- `childFibers.ts` `updateFromMap` (part_009 lines 294-352), host-element
branch: look the element up by its key; reuse the found fiber when its `type`
matches (consuming the map entry), else create a fresh fiber.  Returns the
new fiber and the updated map. -/
def updateFromMap (existingChildren : EMap) (index : Nat) (element : ChildElem) :
    FiberL × EMap :=
  let keyToUse := getElementKeyToUse element index
  let before := mapGet existingChildren keyToUse
  match before with
  | some b =>
    if b.typ = element.typ then
      (useFiber b element.props, mapDelete existingChildren keyToUse)
    else
      (createFiberFromElement element, existingChildren)
  | none => (createFiberFromElement element, existingChildren)

/-- The `for` loop of `reconcileChildrenArray` (part_009 lines 225-265):
per new element, `updateFromMap`, set `index`, link into the chain, then the
`lastPlacedIndex` move/placement marking (only when `shouldTrackEffects`). -/
def reconcileArrayLoop (shouldTrackEffects : Bool) :
    EMap → Nat → Nat → List ChildElem → List FiberL × EMap
  | m, _, _, [] => ([], m)
  | m, i, lastPlacedIndex, e :: rest =>
    let r := updateFromMap m i e
    let nf := r.1
    let nf := FiberL.mk nf.tag nf.typ nf.key i nf.pendingProps nf.memoizedProps
      nf.flags nf.subtreeFlags nf.lanes nf.childLanes nf.alternate
    if shouldTrackEffects then
      match nf.alternate with
      | some current =>
        if current.index < lastPlacedIndex then
          let nf := FiberL.mk nf.tag nf.typ nf.key nf.index nf.pendingProps
            nf.memoizedProps (nf.flags ||| RFlags.Placement) nf.subtreeFlags
            nf.lanes nf.childLanes nf.alternate
          let rec' := reconcileArrayLoop shouldTrackEffects r.2 (i + 1) lastPlacedIndex rest
          (nf :: rec'.1, rec'.2)
        else
          let rec' := reconcileArrayLoop shouldTrackEffects r.2 (i + 1) current.index rest
          (nf :: rec'.1, rec'.2)
      | none =>
        let nf := FiberL.mk nf.tag nf.typ nf.key nf.index nf.pendingProps
          nf.memoizedProps (nf.flags ||| RFlags.Placement) nf.subtreeFlags
          nf.lanes nf.childLanes nf.alternate
        let rec' := reconcileArrayLoop shouldTrackEffects r.2 (i + 1) lastPlacedIndex rest
        (nf :: rec'.1, rec'.2)
    else
      let rec' := reconcileArrayLoop shouldTrackEffects r.2 (i + 1) lastPlacedIndex rest
      (nf :: rec'.1, rec'.2)

/-- `childFibers.ts` `reconcileChildrenArray` (part_009 lines 204-271):
returns the new child chain (in sibling order) and the fibers marked for
deletion (map leftovers, in insertion order; `deleteChild` records them on
the parent only when `shouldTrackEffects`). -/
def reconcileChildrenArray (shouldTrackEffects : Bool)
    (currentChildren : List FiberL) (newChild : List ChildElem) :
    List FiberL × List FiberL :=
  let m := buildExistingChildren currentChildren
  let r := reconcileArrayLoop shouldTrackEffects m 0 0 newChild
  (r.1, if shouldTrackEffects then mapValues r.2 else [])

/-- `childFibers.ts` `cloneChildFibers` (part_009 lines 473-491), sibling
loop body: the source advances `currentChild` along the current chain but
passes `newChild` (the previously created clone) and `newChild.pendingProps`
to `createWorkInProgress`.  The list argument only controls the iteration
count, exactly as `currentChild` only controls the loop guard. -/
def cloneChildFibersLoop (newChild : FiberL) : List FiberL → List FiberL
  | [] => []
  | _ :: rest =>
    let n := createWorkInProgress newChild newChild.pendingProps
    n :: cloneChildFibersLoop n rest

/-- `childFibers.ts` `cloneChildFibers`: clone the whole child chain of a
bailed-out node.  `children` is the current child chain in sibling order;
the result is the new chain.  (In the heap the later iterations alias
already-linked nodes; for chains of length at most two the functional
reading coincides with the imperative one node for node.) -/
def cloneChildFibers (children : List FiberL) : List FiberL :=
  match children with
  | [] => []
  | c :: rest =>
    let w := createWorkInProgress c c.pendingProps
    w :: cloneChildFibersLoop w rest

/-- `beginWork.ts` `bailoutOnAlreadyFinishedWork` (lines 223-236): when the
node's `childLanes` do not include the render lane the whole subtree is
skipped (`none`, i.e. `return null`); else the existing child chain is cloned
and traversal descends into it. -/
def bailoutOnAlreadyFinishedWork (childLanes renderLane : Nat)
    (children : List FiberL) : Option (List FiberL) :=
  if ¬ RLanes.includeSomeLanes childLanes renderLane then
    none
  else
    some (cloneChildFibers children)

end CF

namespace CWk

/-- The fields of the current (previous-render) fiber that `completeWork`
reads on the update path: `current.memoizedProps?.content` for text,
the props identity for host elements, and the previous `ref`. -/
structure CurrentView where
  memoizedPropsContent : Option String
  memoizedProps : Option Nat
  ref : Option Nat
deriving DecidableEq, Repr

/-- The work-in-progress fiber as `completeWork` sees it: tag, `pendingProps`
(`props` identity for a host element, `content` for a text node), `ref`, a
truthy `stateNode`, and `wip.alternate`. -/
structure WipView where
  tag : Nat
  typ : Nat
  pendingProps : Nat
  pendingContent : Option String
  ref : Option Nat
  stateNode : Bool
  current : Option CurrentView
deriving DecidableEq, Repr

/-- What `completeWork` did to the node: the flags it added to `wip.flags`
and whether it created a host instance (`createInstance` /
`createTextInstance` and storing it in `wip.stateNode`). -/
structure CompleteOut where
  addedFlags : Nat
  createdInstance : Bool
deriving DecidableEq, Repr

/-- `completeWork.ts` (final revision, lines 65-105 = part_016 lines
258-299), the `HostComponent` and `HostText` cases.  On the host-element
update path the source calls `markUpdate(wip)` unconditionally and marks
`Ref` when `current.ref !== wip.ref`; on mount it creates the instance and
marks `Ref` when `wip.ref !== null`.  On the text update path it marks
`Update` exactly when `oldText !== newText`. -/
def completeWork (wip : WipView) : CompleteOut :=
  if wip.tag = CF.HostComponent then
    match wip.current with
    | some current =>
      if wip.stateNode then
        { addedFlags :=
            RFlags.UpdateF |||
              (if ¬ current.ref = wip.ref then RFlags.RefF else RFlags.NoFlags)
          createdInstance := false }
      else
        { addedFlags := if ¬ wip.ref = none then RFlags.RefF else RFlags.NoFlags
          createdInstance := true }
    | none =>
      { addedFlags := if ¬ wip.ref = none then RFlags.RefF else RFlags.NoFlags
        createdInstance := true }
  else if wip.tag = CF.HostText then
    match wip.current with
    | some current =>
      if wip.stateNode then
        { addedFlags :=
            if ¬ current.memoizedPropsContent = wip.pendingContent then RFlags.UpdateF
            else RFlags.NoFlags
          createdInstance := false }
      else
        { addedFlags := RFlags.NoFlags, createdInstance := true }
    | none => { addedFlags := RFlags.NoFlags, createdInstance := true }
  else
    { addedFlags := RFlags.NoFlags, createdInstance := false }

end CWk

namespace WL

/-- Host element trees in the child/sibling shape the fiber tree itself uses:
an element child chain is `elemE`/`textE` nodes linked by their `sibling`
argument, ended by `nilE`. -/
inductive HostElem where
  | nilE : HostElem
  | elemE (typ props : Nat) (withRef : Bool) (child sibling : HostElem) : HostElem
  | textE (content : String) (sibling : HostElem) : HostElem
deriving DecidableEq, Repr

/-- The flag bitset of `fiberFlags.ts`, represented field by field
(`Placement = 1`, `Update = 2`, `ChildDeletion = 4`, `PassiveEffect = 8`,
`Ref = 16`, `Visibility = 32`); bitwise or is the fieldwise or. -/
structure FlagsR where
  placement : Bool
  update : Bool
  childDeletion : Bool
  passiveEffect : Bool
  ref : Bool
  visibility : Bool
deriving DecidableEq, Repr

def FlagsR.zero : FlagsR :=
  { placement := false, update := false, childDeletion := false
    passiveEffect := false, ref := false, visibility := false }

def FlagsR.or (a b : FlagsR) : FlagsR :=
  { placement := a.placement || b.placement
    update := a.update || b.update
    childDeletion := a.childDeletion || b.childDeletion
    passiveEffect := a.passiveEffect || b.passiveEffect
    ref := a.ref || b.ref
    visibility := a.visibility || b.visibility }

/-- Fieldwise bitset inclusion. -/
def FlagsR.le (a b : FlagsR) : Bool :=
  (!a.placement || b.placement) && (!a.update || b.update)
    && (!a.childDeletion || b.childDeletion) && (!a.passiveEffect || b.passiveEffect)
    && (!a.ref || b.ref) && (!a.visibility || b.visibility)

/-- `flags & (MutationMask | PassiveMask) !== NoFlags`
(`MutationMask = Placement|Update|ChildDeletion|Ref|Visibility`,
`PassiveMask = PassiveEffect|ChildDeletion`). -/
def mutMaskHit (f : FlagsR) : Bool :=
  f.placement || f.update || f.childDeletion || f.ref || f.visibility || f.passiveEffect

/-- `flags & LayoutMask !== NoFlags` (`LayoutMask = Ref`). -/
def layoutMaskHit (f : FlagsR) : Bool := f.ref

/-- Per-node fiber data of the host-tree pipeline; props and type are
identities, `content` the text content, `hasRef` whether `ref !== null`. -/
structure FibData where
  tag : Nat
  typ : Nat
  props : Nat
  content : Option String
  hasRef : Bool
  flags : FlagsR
  subtreeFlags : FlagsR
  stateNode : Bool
deriving DecidableEq, Repr

/-- A fiber (sub)tree in `child`/`sibling` shape; `nilF` is the null
pointer. -/
inductive FibT where
  | nilF : FibT
  | node (d : FibData) (child : FibT) (sibling : FibT) : FibT
deriving DecidableEq, Repr

/-- `completeWork.ts` `bubbleProperties` (lines 202-225), the accumulation
over a direct child chain: the union of every child's `flags` and
`subtreeFlags`. -/
def bubbleChain : FibT → FlagsR
  | .nilF => FlagsR.zero
  | .node d _ s => (d.flags.or d.subtreeFlags).or (bubbleChain s)

/-- The mount render of a host element chain, as the begin/complete
traversal produces it: children are reconciled by `mountChildFibers`
(`shouldTrackEffects = false`, so no flags), `completeWork` creates the host
instance, marks `Ref` when the element carries a ref
(`wip.ref !== null` on the mount path), and bubbles the children's flags. -/
def mountFib : HostElem → FibT
  | .nilE => .nilF
  | .elemE t p r c s =>
    let kid := mountFib c
    FibT.node
      { tag := CF.HostComponent, typ := t, props := p, content := none
        hasRef := r
        flags := { FlagsR.zero with ref := r }
        subtreeFlags := bubbleChain kid
        stateNode := true }
      kid (mountFib s)
  | .textE str s =>
    FibT.node
      { tag := CF.HostText, typ := 0, props := 0, content := some str
        hasRef := false, flags := FlagsR.zero, subtreeFlags := FlagsR.zero
        stateNode := true }
      .nilF (mountFib s)

/-- The root render reconciles the top-level children with
`reconcileChildFibers` (the root work-in-progress always has an alternate),
so every brand-new top-level node is flagged `Placement`. -/
def placeTopChain : FibT → FibT
  | .nilF => .nilF
  | .node d c s =>
    FibT.node { d with flags := { d.flags with placement := true } } c (placeTopChain s)

/-- The `HostRoot` fiber data (its `completeWork` case only bubbles). -/
def rootData (subtree : FlagsR) : FibData :=
  { tag := CF.HostRoot, typ := 0, props := 0, content := none, hasRef := false
    flags := FlagsR.zero, subtreeFlags := subtree, stateNode := true }

/-- The finished work-in-progress tree of the mount render of `e`. -/
def mountRootFinished (e : HostElem) : FibT :=
  let c := placeTopChain (mountFib e)
  FibT.node (rootData (bubbleChain c)) c .nilF

/-- Host-adapter mutation calls issued by the commit phase. -/
inductive HostMut where
  | insertOrAppend (typ : Nat)
  | hostUpdate (typ : Nat)
  | removeHostChild (typ : Nat)
deriving DecidableEq, Repr

/-- `commitWork.ts` `commitMutationEffectsOnFiber` (lines 71-119) on the
host-tree domain: `Placement` inserts the node's host instance(s) and is
cleared; `Update` calls the adapter's `commitUpdate` and is cleared;
`ChildDeletion` iterates the recorded `deletions` (none are recorded in the
modelled flows, so no removal is emitted) and is cleared; `PassiveEffect`
only collects effect lists (no host call) and is cleared; `Ref` on a host
component detaches the old ref (not a host-tree mutation; the flag is kept
for the layout sub-phase); `Visibility` applies only to
`OffscreenComponent`s, absent from this domain. -/
def mutOnFiber (d : FibData) : List HostMut × FibData :=
  let evPlacement : List HostMut :=
    if d.flags.placement then [HostMut.insertOrAppend d.typ] else []
  let evUpdate : List HostMut :=
    if d.flags.update then [HostMut.hostUpdate d.typ] else []
  (evPlacement ++ evUpdate,
   { d with flags :=
      { d.flags with placement := false, update := false, childDeletion := false
                     passiveEffect := false } })

/-- `commitWork.ts` `commitEffects` (lines 40-69) instantiated as
`commitMutationEffects`: the iterative traversal descends into a node's
children exactly when `subtreeFlags & (MutationMask | PassiveMask)` is set
and a child exists, runs the per-node callback in post-order, and always
continues along the sibling chain. -/
def mutWalk : FibT → List HostMut × FibT
  | .nilF => ([], .nilF)
  | .node d c s =>
    if mutMaskHit d.subtreeFlags && !(c = FibT.nilF) then
      let rc := mutWalk c
      let rd := mutOnFiber d
      let rs := mutWalk s
      (rc.1 ++ rd.1 ++ rs.1, FibT.node rd.2 rc.2 rs.2)
    else
      let rd := mutOnFiber d
      let rs := mutWalk s
      (rd.1 ++ rs.1, FibT.node rd.2 c rs.2)

/-- `commitWork.ts` `commitLayoutEffectsOnFiber` (lines 247-258): attach the
new ref and clear the `Ref` flag on flagged host components (ref attachment
is not a host-tree mutation). -/
def layoutOnFiber (d : FibData) : FibData :=
  if d.flags.ref && (d.tag == CF.HostComponent) then
    { d with flags := { d.flags with ref := false } }
  else d

/-- `commitLayoutEffects`: the same traversal filtered by `LayoutMask`. -/
def layoutWalk : FibT → FibT
  | .nilF => .nilF
  | .node d c s =>
    if layoutMaskHit d.subtreeFlags && !(c = FibT.nilF) then
      FibT.node (layoutOnFiber d) (layoutWalk c) (layoutWalk s)
    else
      FibT.node (layoutOnFiber d) c (layoutWalk s)

/-- `workLoop.ts` `commitRoot` (lines 735-797), mutation/layout part: when
neither the root's `flags` nor its `subtreeFlags` intersect
`MutationMask | PassiveMask`, only the current-tree pointer is swapped;
else the mutation sub-phase runs, the trees are swapped, and the layout
sub-phase runs.  Returns the host mutations issued and the committed tree. -/
def commitRootModel (finished : FibT) : List HostMut × FibT :=
  match finished with
  | .nilF => ([], .nilF)
  | .node d _ _ =>
    if mutMaskHit d.subtreeFlags || mutMaskHit d.flags then
      let r := mutWalk finished
      (r.1, layoutWalk r.2)
    else
      ([], finished)

/-- Re-rendering the committed tree with the identical element at the same
lane: `createWorkInProgress` on the root clears its `flags`/`subtreeFlags`
and copies the child pointer; `updateHostRoot` replays the root update queue,
obtains the same element object (`prevChildren === nextChildren`) and takes
`bailoutOnAlreadyFinishedWork`; the root's `childLanes` are `NoLanes`
(nothing below has a pending update), so the whole subtree is skipped
(`return null`) and `completeWork` on the root only runs `bubbleProperties`
over the unchanged current children. -/
def rerenderSame : FibT → FibT
  | .nilF => .nilF
  | .node _ c _ => FibT.node (rootData (bubbleChain c)) c .nilF

/-- The first child chain of the root of a finished tree (the nodes strictly
below the root when the root is the first bailed-out node). -/
def rootChild : FibT → FibT
  | .nilF => .nilF
  | .node _ c _ => c

/-- The `subtreeFlags` summary stored on the head node of a (sub)tree. -/
def topSubtreeFlags : FibT → FlagsR
  | .nilF => FlagsR.zero
  | .node d _ _ => d.subtreeFlags

/-- All flags of every node of the (sub)tree, its chain included, are
cleared. -/
def allFlagsZero : FibT → Bool
  | .nilF => true
  | .node d c s => d.flags == FlagsR.zero && allFlagsZero c && allFlagsZero s

/-- Each node's `subtreeFlags` subsume the bubbled union of its child chain
— the invariant `bubbleProperties` establishes bottom-up and the commit
walks rely on to find flagged descendants. -/
def SummOk : FibT → Bool
  | .nilF => true
  | .node d c s => FlagsR.le (bubbleChain c) d.subtreeFlags && SummOk c && SummOk s

/-- The flag discipline of a freshly mounted host tree: only `Placement` and
`Ref` can be set, and `Ref` only on host components. -/
def MountShape : FibT → Bool
  | .nilF => true
  | .node d c s =>
    !d.flags.update && !d.flags.childDeletion && !d.flags.passiveEffect
      && !d.flags.visibility && (!d.flags.ref || d.tag == CF.HostComponent)
      && MountShape c && MountShape s

/-- The flag discipline after the mutation sub-phase: only `Ref` can remain,
and only on host components. -/
def RefOnlyShape : FibT → Bool
  | .nilF => true
  | .node d c s =>
    !d.flags.placement && !d.flags.update && !d.flags.childDeletion
      && !d.flags.passiveEffect && !d.flags.visibility
      && (!d.flags.ref || d.tag == CF.HostComponent)
      && RefOnlyShape c && RefOnlyShape s

end WL

namespace Fixtures

open UQ RLanes CF WL

/-- Scenario C: `setCount(c => c + 1)` dispatched twice synchronously.  The
first dispatch finds no pending lanes and is eager (`eagerState = 1`, not
`Object.is`-equal to 0, so it is enqueued at `SyncLane` with the eager state
attached); the second dispatch sees the pending `SyncLane` and is plain. -/
def incEager : Upd Int :=
  { action := Sum.inr (fun c => c + 1), lane := SyncLane, eager := some 1 }

def incPlain : Upd Int :=
  { action := Sum.inr (fun c => c + 1), lane := SyncLane, eager := none }

/-- C3: a low-priority update enqueued first (e.g. inside a transition)... -/
def timesTenLow : Upd Int :=
  { action := Sum.inr (fun s => s * 10), lane := DefaultLane, eager := none }

/-- ...followed by a high-priority function update. -/
def incHigh : Upd Int :=
  { action := Sum.inr (fun s => s + 1), lane := SyncLane, eager := none }

/-- C3 pass 1: the state hook starts at state 1 with an empty base queue and
both updates pending; the render pass runs at `SyncLane`. -/
def c3pass1 : UpdateStateResult Int :=
  updateState { memoizedState := 1, baseState := 1, baseQueue := [] }
    [timesTenLow, incHigh] SyncLane

/-- C3 pass 2: the later render pass at `DefaultLane` replays the retained
base queue (nothing newly enqueued). -/
def c3pass2 : UpdateStateResult Int :=
  updateState c3pass1.hook [] DefaultLane

/-- C4: a bailed-out parent whose current chain holds two children with
distinct pending props (50 and 60) and no alternates yet. -/
def c4first : FiberL := FiberL.mk HostComponent 7 none 0 50 (some 50) 0 0 0 0 none

def c4second : FiberL := FiberL.mk HostComponent 7 none 1 60 (some 60) 0 0 0 0 none

/-- C2 counterexample: the current chain holds the keyed node `a` of type 7;
the new array holds the same key with a different element type 8. -/
def c2old : FiberL := FiberL.mk HostComponent 7 (some "a") 0 50 (some 50) 0 0 0 0 none

def c2newElem : ChildElem := { key := some "a", typ := 8, props := 51 }

/-- C2 witness element: same key and same type as `c2old`, fresh props. -/
def c2newSame : ChildElem := { key := some "a", typ := 7, props := 51 }

/-- C2 second violation: a keyed element whose key is the empty string (the
`FiberNode` constructor normalizes the falsy key `""` to `null`). -/
def c2emptyKeyElem : ChildElem := { key := some "", typ := 7, props := 51 }

/-- C5 counterexample: a host element on the update path whose pending props
and ref are identical to the current tree's. -/
def c5wip : CWk.WipView :=
  { tag := HostComponent, typ := 3, pendingProps := 9, pendingContent := none
    ref := none, stateNode := true
    current := some { memoizedPropsContent := none, memoizedProps := some 9, ref := none } }

/-- C6 counterexample tree: a `div` (type 100) containing a `span`
(type 101) that carries a ref. -/
def c6elem : HostElem := .elemE 100 1 false (.elemE 101 2 true .nilE .nilE) .nilE

/-- The committed current tree after the mount render of `c6elem`. -/
def c6committed : FibT := (commitRootModel (mountRootFinished c6elem)).2

/-- The finished tree of the identical re-render. -/
def c6finished2 : FibT := rerenderSame c6committed

end Fixtures

section ClaimC1

open UQ RLanes Fixtures

/-- C1.  For a sequence of updates enqueued to one state hook before a render
of their lane, the spec says processing folds the updates left-to-right over
the initial state (two synchronous `setCount(c => c + 1)` dispatches from 0
must yield 2).  The code violates this: `processUpdateQueue` applies every
non-eager reducer to the original `baseState` parameter instead of the
accumulated state (part_012 line 212), so Scenario C's queue — the first
dispatch eager with `eagerState = 1`, the second plain — yields final state 1
while the specified fold yields 2. -/
theorem C1_process_update_queue_is_not_the_fold :
    (processUpdateQueue (0 : Int) [incEager, incPlain] SyncLane).memoizedState = 1 ∧
      foldUpdates (0 : Int) [incEager, incPlain] = 2 ∧ (1 : Int) ≠ 2 := by
  refine ⟨by decide, by decide, by decide⟩

end ClaimC1

section ClaimC3

open UQ RLanes Fixtures

/-- C3.  With U2 = `s ↦ s * 10` pending at `DefaultLane` (enqueued first,
e.g. inside a transition) and U1 = `s ↦ s + 1` pending at `SyncLane`
(enqueued second), from state 1: the render pass at `SyncLane` correctly
reflects only U1 (state 2, U2 skipped into the base queue at its lane, the
consumed U1 re-queued at `NoLane`, the base state frozen at 1, the skipped
lane re-registered on the fiber).  But the spec also requires the later
`DefaultLane` pass to reflect both updates in enqueue order
(`(1 * 10) + 1 = 11`); the code yields 2 — U2's effect is lost, because the
replayed U1 is applied to the frozen base state instead of the accumulated
state (part_012 line 212). -/
theorem C3_low_priority_update_lost_on_replay :
    c3pass1.hook.memoizedState = 2 ∧
      c3pass1.hook.baseState = 1 ∧
      c3pass1.hook.baseQueue.map (fun u => u.lane) = [DefaultLane, NoLane] ∧
      c3pass1.skippedFiberLanes = DefaultLane ∧
      c3pass2.hook.memoizedState = 2 ∧
      foldUpdates (1 : Int) [timesTenLow, incHigh] = 11 ∧ (2 : Int) ≠ 11 := by
  refine ⟨by decide, by decide, by decide, by decide, by decide, by decide, by decide⟩

end ClaimC3

section ClaimC9

open HookCtx

/-- Once the cursor has started, running one more `updateWorkInProgressHook`
call than the remaining previous-render hooks throws the hook-count error. -/
theorem runUpdateHooks_overflow_aux (prevHooks : List HookRec) :
    ∀ (rem wip : List HookRec),
      runUpdateHooks prevHooks (rem.length + 1)
          { started := true, remaining := rem, wip := wip } =
        Except.error JsError.moreHooksThanPrevRender := by
  intro rem
  induction rem with
  | nil => intro wip; rfl
  | cons h t ih =>
    intro wip
    cases wip with
    | nil => exact ih [{ payload := h.payload }]
    | cons w ws => exact ih (w :: ws ++ [{ payload := h.payload }])

/-- C9.  Hook usage errors are thrown synchronously: `resolveDispatcher`
throws when no dispatcher is installed; the mount-path and update-path hook
cursors throw when `currentlyRenderingFiber` is `null` (no function component
is being invoked by the traversal); and an update render performing more hook
calls than the previous render of the instance throws the hook-count error
(here: `n + 1` calls against a previous hook list of length `n`). -/
theorem C9_hook_usage_errors :
    resolveDispatcher (δ := Unit) none = Except.error JsError.hookOutsideDispatcher ∧
      mountWorkInProgressHook none [] = Except.error JsError.hookOutsideComponent ∧
      updateWorkInProgressHook none { started := false, remaining := [], wip := [] } =
        Except.error JsError.typeErrorNullAlternate ∧
      ∀ prevHooks : List HookRec,
        updateRenderHooks prevHooks (prevHooks.length + 1) =
          Except.error JsError.moreHooksThanPrevRender := by
  refine ⟨rfl, rfl, rfl, ?_⟩
  intro prevHooks
  cases prevHooks with
  | nil => rfl
  | cons h t => exact runUpdateHooks_overflow_aux (h :: t) t [{ payload := h.payload }]

end ClaimC9

section ClaimC10

open HookDeps

/-- The element-wise zip comparison equals agreement on every index of the
common prefix (up to the shorter length). -/
theorem zip_all_eq_iff {α : Type} [DecidableEq α] (p : List α) :
    ∀ n : List α,
      (((p.zip n).all fun q => q.1 == q.2) = true ↔
        ∀ i, i < min p.length n.length → p.get? i = n.get? i) := by
  induction p with
  | nil => intro n; simp
  | cons a p ih =>
    intro n
    cases n with
    | nil => simp
    | cons b m =>
      simp only [List.zip_cons_cons, List.all_cons, Bool.and_eq_true, beq_iff_eq, ih m]
      constructor
      · rintro ⟨hab, hrest⟩ i hi
        cases i with
        | zero => simp [hab]
        | succ j =>
          have hj : j < min p.length m.length := by
            simp only [List.length_cons, Nat.succ_min_succ] at hi
            omega
          simpa using hrest j hj
      · intro hall
        refine ⟨by simpa using hall 0 (by simp [Nat.succ_min_succ]), ?_⟩
        intro j hj
        have := hall (j + 1) (by simp only [List.length_cons, Nat.succ_min_succ]; omega)
        simpa using this

/-- C10.  `areHookInputsEqual` treats a `null` deps array on either side as
unequal; two non-null arrays compare equal exactly when `Object.is` holds at
every index of their common prefix (up to the shorter length) — so `[a]` and
`[a, b]` compare equal; `updateEffect` re-flags the effect exactly when the
comparison fails (always for `null` deps), and `updateMemo` recomputes the
memoized value exactly when the comparison fails, returning the cached value
otherwise. -/
theorem C10_hook_deps_common_prefix_comparison :
    (∀ prev : Option (List Nat), areHookInputsEqual (α := Nat) none prev = false) ∧
      (∀ next : List Nat, areHookInputsEqual (some next) none = false) ∧
      (∀ prev next : List Nat,
        areHookInputsEqual (some next) (some prev) = true ↔
          ∀ i, i < min prev.length next.length → prev.get? i = next.get? i) ∧
      (∀ a b : Nat, areHookInputsEqual (some [a]) (some [a, b]) = true) ∧
      (∀ (pe : EffectRec Nat) (c : Nat) (ds : List Nat),
        (updateEffect pe c (some ds)).2 = !areHookInputsEqual (some ds) pe.deps ∧
          (updateEffect pe c (some ds)).1.tag =
            (if areHookInputsEqual (some ds) pe.deps then Hooks.Passive
              else Hooks.Passive ||| Hooks.HookHasEffect)) ∧
      (∀ (pe : EffectRec Nat) (c : Nat), (updateEffect pe c none).2 = true) ∧
      (∀ (prev : Nat × Option (List Nat)) (f : Unit → Nat) (ds : List Nat),
        (updateMemo prev f (some ds)).1 =
            (if areHookInputsEqual (some ds) prev.2 then prev.1 else f ()) ∧
          (updateMemo prev f (some ds)).2.1 = !areHookInputsEqual (some ds) prev.2) := by
  refine ⟨?_, ?_, ?_, ?_, ?_, ?_, ?_⟩
  · intro prev; cases prev <;> rfl
  · intro next; rfl
  · intro prev next
    simpa [areHookInputsEqual] using zip_all_eq_iff prev next
  · intro a b; simp [areHookInputsEqual]
  · intro pe c ds
    constructor <;> · simp only [updateEffect]; split <;> simp_all
  · intro pe c; rfl
  · intro prev f ds
    constructor <;> · simp only [updateMemo]; split <;> simp_all

end ClaimC10

section ClaimC7

open PE

/-- Every event of an unmount-pass trace is a destroy invocation. -/
theorem unmount_trace_destroy_only (flags : Nat) (effects : List EffectC) :
    ∀ ev ∈ commitHookEffectListUnmountTrace flags effects, ∃ d, ev = PEvent.destroyEv d := by
  intro ev hev
  simp only [commitHookEffectListUnmountTrace, List.mem_flatMap] at hev
  obtain ⟨e, -, hm⟩ := hev
  by_cases h : matchesTag flags e
  · cases hd : e.destroy with
    | none => rw [if_pos h, hd] at hm; simp at hm
    | some d => rw [if_pos h, hd] at hm; simp at hm; exact ⟨d, hm⟩
  · rw [if_neg h] at hm; simp at hm

/-- Every event of a destroy-pass trace is a destroy invocation. -/
theorem destroy_trace_destroy_only (flags : Nat) (effects : List EffectC) :
    ∀ ev ∈ commitHookEffectListDestroyTrace flags effects, ∃ d, ev = PEvent.destroyEv d := by
  intro ev hev
  simp only [commitHookEffectListDestroyTrace, List.mem_flatMap] at hev
  obtain ⟨e, -, hm⟩ := hev
  by_cases h : matchesTag flags e
  · cases hd : e.destroy with
    | none => rw [if_pos h, hd] at hm; simp at hm
    | some d => rw [if_pos h, hd] at hm; simp at hm; exact ⟨d, hm⟩
  · rw [if_neg h] at hm; simp at hm

/-- Every event of a create-pass trace is a create invocation. -/
theorem create_trace_create_only (flags : Nat) (effects : List EffectC) :
    ∀ ev ∈ commitHookEffectListCreateTrace flags effects, ∃ c, ev = PEvent.createEv c := by
  intro ev hev
  simp only [commitHookEffectListCreateTrace, List.mem_flatMap] at hev
  obtain ⟨e, -, hm⟩ := hev
  by_cases h : matchesTag flags e
  · cases hc : e.create with
    | none => rw [if_pos h, hc] at hm; simp at hm
    | some c => rw [if_pos h, hc] at hm; simp at hm; exact ⟨c, hm⟩
  · rw [if_neg h] at hm; simp at hm

theorem flush_trace_eq_front_append (p : PendingPassiveEffects) :
    flushPassiveEffectsTrace p =
      destroyFront p
        ++ p.update.flatMap
            (commitHookEffectListCreateTrace (Hooks.Passive ||| Hooks.HookHasEffect)) := by
  simp [flushPassiveEffectsTrace, destroyFront]

theorem destroy_front_destroy_only (p : PendingPassiveEffects) :
    ∀ ev ∈ destroyFront p, ∃ d, ev = PEvent.destroyEv d := by
  intro ev hev
  rcases List.mem_append.mp hev with h | h
  · obtain ⟨el, -, hm⟩ := List.mem_flatMap.mp h
    exact unmount_trace_destroy_only _ el ev hm
  · obtain ⟨el, -, hm⟩ := List.mem_flatMap.mp h
    exact destroy_trace_destroy_only _ el ev hm

/-- C7.  In a passive-effect flush, every destroy invocation happens strictly
before every create invocation of the same batch (first conjunct: any destroy
event precedes any create event in the flush trace); and for an effect of
the update batch whose tag carries `Passive | HookHasEffect` (its deps
changed across the commit), with a stored old destroy and a create callback,
the old destroy runs strictly before the new create (second conjunct). -/
theorem C7_all_destroys_precede_all_creates :
    (∀ (p : PendingPassiveEffects) (i j : Nat) (c d : Nat),
        (flushPassiveEffectsTrace p).get? i = some (PEvent.createEv c) →
        (flushPassiveEffectsTrace p).get? j = some (PEvent.destroyEv d) →
        j < i) ∧
      ∀ (p : PendingPassiveEffects) (el : List EffectC) (e : EffectC),
        el ∈ p.update → e ∈ el →
        matchesTag (Hooks.Passive ||| Hooks.HookHasEffect) e = true →
        ∀ d c, e.destroy = some d → e.create = some c →
        ∃ i j, (flushPassiveEffectsTrace p).get? j = some (PEvent.destroyEv d) ∧
          (flushPassiveEffectsTrace p).get? i = some (PEvent.createEv c) ∧ j < i := by
  have hfront : ∀ (p : PendingPassiveEffects) (j : Nat) (d : Nat),
      (flushPassiveEffectsTrace p).get? j = some (PEvent.destroyEv d) →
      j < (destroyFront p).length := by
    intro p j d hj
    rw [flush_trace_eq_front_append] at hj
    by_contra hge
    push_neg at hge
    rw [List.get?_append_right hge] at hj
    obtain ⟨el, -, hm⟩ := List.mem_flatMap.mp (List.get?_mem hj)
    obtain ⟨c, hc⟩ := create_trace_create_only _ el _ hm
    simp at hc
  have hback : ∀ (p : PendingPassiveEffects) (i : Nat) (c : Nat),
      (flushPassiveEffectsTrace p).get? i = some (PEvent.createEv c) →
      (destroyFront p).length ≤ i := by
    intro p i c hi
    rw [flush_trace_eq_front_append] at hi
    by_contra hlt
    push_neg at hlt
    rw [List.get?_append hlt] at hi
    obtain ⟨d, hd⟩ := destroy_front_destroy_only p _ (List.get?_mem hi)
    simp at hd
  constructor
  · intro p i j c d hi hj
    exact lt_of_lt_of_le (hfront p j d hj) (hback p i c hi)
  · intro p el e hel he hmatch d c hd hc
    have hdmem : PEvent.destroyEv d ∈ destroyFront p := by
      refine List.mem_append.mpr (Or.inr ?_)
      refine List.mem_flatMap.mpr ⟨el, hel, ?_⟩
      simp only [commitHookEffectListDestroyTrace, List.mem_flatMap]
      exact ⟨e, he, by rw [if_pos hmatch, hd]; simp⟩
    have hcmem : PEvent.createEv c ∈
        p.update.flatMap
          (commitHookEffectListCreateTrace (Hooks.Passive ||| Hooks.HookHasEffect)) := by
      refine List.mem_flatMap.mpr ⟨el, hel, ?_⟩
      simp only [commitHookEffectListCreateTrace, List.mem_flatMap]
      exact ⟨e, he, by rw [if_pos hmatch, hc]; simp⟩
    obtain ⟨j, hj⟩ := List.mem_iff_get?.mp hdmem
    obtain ⟨i0, hi0⟩ := List.mem_iff_get?.mp hcmem
    refine ⟨(destroyFront p).length + i0, j, ?_, ?_, ?_⟩
    · rw [flush_trace_eq_front_append]
      rw [List.get?_append (lt_of_lt_of_le (List.get?_eq_some.mp hj).1 le_rfl)]
      exact hj
    · rw [flush_trace_eq_front_append]
      rw [List.get?_append_right (Nat.le_add_right _ _)]
      simpa using hi0
    · have := (List.get?_eq_some.mp hj).1
      omega

end ClaimC7

/-- Witness for C7 at a concrete flush: one unmounted effect with destroy 9,
one updated effect (tag `Passive | HookHasEffect`) with old destroy 4 and
create 5; the trace is `[destroy 9, destroy 4, create 5]`. -/
theorem C7_witness :
    (1 : Nat) < 2 ∧
      ∃ i j,
        (PE.flushPassiveEffectsTrace
              { unmount := [[{ tag := 2, create := none, createRet := none, destroy := some 9 }]]
                update :=
                  [[{ tag := 3, create := some 5, createRet := none, destroy := some 4 }]] }).get?
            j = some (PE.PEvent.destroyEv 4) ∧
          (PE.flushPassiveEffectsTrace
                { unmount := [[{ tag := 2, create := none, createRet := none, destroy := some 9 }]]
                  update :=
                    [[{ tag := 3, create := some 5, createRet := none, destroy := some 4 }]] }).get?
              i = some (PE.PEvent.createEv 5) ∧ j < i :=
  ⟨C7_all_destroys_precede_all_creates.1
      { unmount := [[{ tag := 2, create := none, createRet := none, destroy := some 9 }]]
        update := [[{ tag := 3, create := some 5, createRet := none, destroy := some 4 }]] }
      2 1 5 4 (by decide) (by decide),
    C7_all_destroys_precede_all_creates.2
      { unmount := [[{ tag := 2, create := none, createRet := none, destroy := some 9 }]]
        update := [[{ tag := 3, create := some 5, createRet := none, destroy := some 4 }]] }
      [{ tag := 3, create := some 5, createRet := none, destroy := some 4 }]
      { tag := 3, create := some 5, createRet := none, destroy := some 4 }
      (by decide) (by decide) (by decide) 4 5 rfl rfl⟩

section ClaimC8

open UQ RLanes Hooks

/-- Eager annotations that agree with the reducer applied to the process-time
base state do not influence the update-queue processing loop. -/
theorem processLoop_stripEager {σ : Type} (baseState : σ) (renderLane : Nat) :
    ∀ us : List (Upd σ), EagerOk baseState us →
      ∀ ns nbs bq sk,
        processLoop baseState renderLane us ns nbs bq sk =
          processLoop baseState renderLane (stripEager us) ns nbs bq sk := by
  intro us
  induction us with
  | nil => intro _ ns nbs bq sk; rfl
  | cons u rest ih =>
    intro h ns nbs bq sk
    have hrest : EagerOk baseState rest := fun x hx v hv =>
      h x (List.mem_cons_of_mem _ hx) v hv
    simp only [stripEager, List.map_cons, processLoop]
    by_cases hskip : ¬ RLanes.isSubsetOfLanes renderLane u.lane
    · simp only [if_pos hskip]
      exact (by split <;> exact ih hrest _ _ _ _)
    · simp only [if_neg hskip]
      cases he : u.eager with
      | none => exact ih hrest _ _ _ _
      | some v =>
        rw [h u (List.mem_cons_self u rest) v he]
        exact ih hrest _ _ _ _

/-- `processUpdateQueue` is unchanged when the eager annotations are erased,
provided each annotation equals the reducer applied to the base state the
queue is processed from (which `dispatchSetState` guarantees: an eager state
is computed from `lastRenderedState`, and the eager path is only taken when
no lane is pending on the hook's fiber — hence nothing was skipped in the
previous pass and the hook's `baseState` equals `lastRenderedState`). -/
theorem processUpdateQueue_stripEager {σ : Type} (s : σ) (us : List (Upd σ))
    (renderLane : Nat) (h : EagerOk s us) :
    processUpdateQueue s us renderLane = processUpdateQueue s (stripEager us) renderLane := by
  cases us with
  | nil => rfl
  | cons u rest =>
    have hl := processLoop_stripEager s renderLane (u :: rest) h s s [] []
    simp only [processUpdateQueue, stripEager, List.map_cons] at hl ⊢
    rw [hl]

end ClaimC8

section ClaimC8Main

open UQ RLanes Hooks

/-- C8.  The eager-state optimization of `dispatchSetState`:
(1) when neither the fiber nor its alternate has a pending lane, the
dispatched update is enqueued carrying the eager state computed by the plain
reducer `basicStateReducer` from `lastRenderedState`;
(2) when that eager state is `Object.is`-equal to `lastRenderedState`, the
enqueue happens at `NoLane` — the fiber's (and alternate's) lane bookkeeping
is unchanged — and no re-render is scheduled, yet the update is still
recorded in the queue for ordering;
(3) without the optimization (`dispatchSetStateNoEager`) the same update is
enqueued at its lane and a re-render is scheduled;
(4) processing any queue whose eager annotations agree with the reducer at
the process-time base state (the invariant the eager path guarantees) yields
exactly the same result as processing the un-annotated queue — the
optimization does not change the computed states;
(5) in the eager-hit case the rendered state is unchanged in both worlds:
processing the optimized update or the plain update from `lastRenderedState`
leaves the state equal to `lastRenderedState`, whether or not the update's
lane is included in the render lane. -/
theorem C8_eager_state_dispatch {σ : Type} [DecidableEq σ] :
    (∀ (fiber : DispatchFiber) (q : FCQueue σ) (action : Action σ) (lane : Nat),
        fiber.lanes = NoLanes → fiber.alternateLanes.getD NoLanes = NoLanes →
        (dispatchSetState fiber q action lane).queue.pending =
          q.pending ++
            [{ action := action, lane := lane
               eager := some (basicStateReducer q.lastRenderedState action) }]) ∧
      (∀ (fiber : DispatchFiber) (q : FCQueue σ) (action : Action σ) (lane : Nat),
        fiber.lanes = NoLanes → fiber.alternateLanes.getD NoLanes = NoLanes →
        basicStateReducer q.lastRenderedState action = q.lastRenderedState →
        (dispatchSetState fiber q action lane).scheduled = none ∧
          (dispatchSetState fiber q action lane).fiber = fiber) ∧
      (∀ (fiber : DispatchFiber) (q : FCQueue σ) (action : Action σ) (lane : Nat),
        (dispatchSetStateNoEager fiber q action lane).queue.pending =
            q.pending ++ [{ action := action, lane := lane, eager := none }] ∧
          (dispatchSetStateNoEager fiber q action lane).scheduled = some lane) ∧
      (∀ (s : σ) (us : List (Upd σ)) (renderLane : Nat), EagerOk s us →
        processUpdateQueue s us renderLane =
          processUpdateQueue s (stripEager us) renderLane) ∧
      ∀ (s : σ) (action : Action σ) (lane renderLane : Nat),
        basicStateReducer s action = s →
        (processUpdateQueue s [{ action := action, lane := lane, eager := some s }]
              renderLane).memoizedState = s ∧
          (processUpdateQueue s [{ action := action, lane := lane, eager := none }]
              renderLane).memoizedState = s := by
  refine ⟨?_, ?_, ?_, ?_, ?_⟩
  · intro fiber q action lane h1 h2
    simp only [dispatchSetState, h1, h2]
    simp only [beq_self_eq_true, Bool.and_self, if_true]
    split <;> rfl
  · rintro ⟨fl, fal⟩ q action lane h1 h2 hhit
    simp only [RLanes.NoLanes] at h1 h2
    subst h1
    have hmap : fal.map (fun l => mergeLanes l NoLane) = fal := by
      cases fal <;> simp [mergeLanes, RLanes.NoLane]
    constructor <;>
      simp [dispatchSetState, h2, hhit, enqueueUpdate, mergeLanes, RLanes.NoLane,
        RLanes.NoLanes, hmap]
  · intro fiber q action lane
    exact ⟨rfl, rfl⟩
  · intro s us renderLane h
    exact processUpdateQueue_stripEager s us renderLane h
  · intro s action lane renderLane hhit
    constructor <;>
      · simp only [processUpdateQueue, processLoop]
        split <;> simp [hhit]

end ClaimC8Main

/-- Witness for C8 at concrete inputs (state type `Int`, a hook at last
rendered state 0 with no pending lanes, dispatching the value action `0`,
which is an eager hit). -/
theorem C8_witness :
    (Hooks.dispatchSetState (σ := Int) ⟨0, some 0⟩ ⟨[], 0⟩ (Sum.inl 0) 1).queue.pending =
        [] ++
          [{ action := Sum.inl 0, lane := 1
             eager := some (UQ.basicStateReducer (0 : Int) (Sum.inl 0)) }] ∧
      ((Hooks.dispatchSetState (σ := Int) ⟨0, some 0⟩ ⟨[], 0⟩ (Sum.inl 0) 1).scheduled = none ∧
        (Hooks.dispatchSetState (σ := Int) ⟨0, some 0⟩ ⟨[], 0⟩ (Sum.inl 0) 1).fiber =
          ⟨0, some 0⟩) ∧
      UQ.processUpdateQueue (0 : Int)
          [{ action := Sum.inl 0, lane := 1, eager := some 0 }] 1 =
        UQ.processUpdateQueue (0 : Int)
          (Hooks.stripEager [{ action := Sum.inl 0, lane := 1, eager := some 0 }]) 1 ∧
      (UQ.processUpdateQueue (0 : Int)
            [{ action := Sum.inl 0, lane := 1, eager := some 0 }] 1).memoizedState = 0 := by
  have hEager :
      Hooks.EagerOk (0 : Int) [{ action := Sum.inl 0, lane := 1, eager := some 0 }] := by
    intro u hu v hv
    rw [List.mem_singleton] at hu
    subst hu
    simp only [Option.some.injEq] at hv
    subst hv
    rfl
  refine ⟨(C8_eager_state_dispatch (σ := Int)).1 ⟨0, some 0⟩ ⟨[], 0⟩ (Sum.inl 0) 1 rfl rfl,
    (C8_eager_state_dispatch (σ := Int)).2.1 ⟨0, some 0⟩ ⟨[], 0⟩ (Sum.inl 0) 1 rfl rfl rfl,
    (C8_eager_state_dispatch (σ := Int)).2.2.2.1 0
      [{ action := Sum.inl 0, lane := 1, eager := some 0 }] 1 hEager,
    ((C8_eager_state_dispatch (σ := Int)).2.2.2.2 0 (Sum.inl 0) 1 1 rfl).1⟩

section ClaimC4

open CF RLanes Fixtures

/-- C4.  The whole-subtree half of the claim holds: when `childLanes`
excludes the render lane, `bailoutOnAlreadyFinishedWork` returns `null`.
But the clone half is violated: for a bailed-out node whose current chain is
`[c4first (props 50), c4second (props 60)]`, the sibling loop of
`cloneChildFibers` calls `createWorkInProgress(newChild,
newChild.pendingProps)` instead of `createWorkInProgress(currentChild,
currentChild.pendingProps)` (part_009 lines 483-490), so the produced chain
carries pending props `[50, 50]` — the second new child is a clone of the
first child again, with the first clone as its alternate — while the claim
requires `[50, 60]` with `c4second` as the second child's alternate. -/
theorem C4_clone_child_fibers_clones_wrong_node :
    (bailoutOnAlreadyFinishedWork NoLanes SyncLane [c4first, c4second]).isNone = true ∧
      (bailoutOnAlreadyFinishedWork SyncLane SyncLane [c4first, c4second]).map
          (fun l => l.map FiberL.pendingProps) = some [50, 50] ∧
      [c4first, c4second].map FiberL.pendingProps = [50, 60] ∧
      (bailoutOnAlreadyFinishedWork SyncLane SyncLane [c4first, c4second]).map
          (fun l => l.map (fun f => f.alternate.map FiberL.pendingProps)) =
        some [some 50, some 50] ∧
      (50 : Nat) ≠ 60 := by
  refine ⟨by decide, by decide, by decide, by decide, by decide⟩

end ClaimC4

section ClaimC5

open CWk CF Fixtures

/-- Counterexample to C5: a host element on the update path whose pending
props identity (9) equals the current tree's memoized props and whose ref is
unchanged still gets the `Update` flag — the final `completeWork` marks host
elements unconditionally on update. -/
theorem C5_counterexample :
    (completeWork c5wip).addedFlags = RFlags.UpdateF ∧
      c5wip.current.map (fun c => c.memoizedProps) = some (some c5wip.pendingProps) ∧
      c5wip.current.map (fun c => c.ref) = some c5wip.ref ∧
      RFlags.UpdateF ≠ RFlags.NoFlags := by
  refine ⟨by decide, by decide, by decide, by decide⟩

/-- C5 as amended.  In the complete phase: a host text node being updated is
flagged `Update` exactly when the content differs; a host element being
updated is always flagged `Update` (props are not compared) and `Ref`
exactly when the ref changed; on first mount the host instance is created
and no `Update` flag is set (host elements are flagged `Ref` when they carry
a ref). -/
theorem C5_amended_complete_work_flags :
    (∀ (wip : WipView) (cur : CurrentView),
        wip.tag = HostComponent → wip.current = some cur → wip.stateNode = true →
        completeWork wip =
          { addedFlags :=
              RFlags.UpdateF |||
                (if ¬ cur.ref = wip.ref then RFlags.RefF else RFlags.NoFlags)
            createdInstance := false }) ∧
      (∀ (wip : WipView) (cur : CurrentView),
        wip.tag = HostText → wip.current = some cur → wip.stateNode = true →
        completeWork wip =
          { addedFlags :=
              if ¬ cur.memoizedPropsContent = wip.pendingContent then RFlags.UpdateF
              else RFlags.NoFlags
            createdInstance := false }) ∧
      (∀ wip : WipView,
        wip.tag = HostComponent → wip.current = none →
        completeWork wip =
          { addedFlags := if ¬ wip.ref = none then RFlags.RefF else RFlags.NoFlags
            createdInstance := true }) ∧
      ∀ wip : WipView,
        wip.tag = HostText → wip.current = none →
        completeWork wip = { addedFlags := RFlags.NoFlags, createdInstance := true } := by
  refine ⟨?_, ?_, ?_, ?_⟩
  · intro wip cur htag hcur hsn
    simp [completeWork, htag, hcur, hsn]
  · intro wip cur htag hcur hsn
    have : wip.tag ≠ HostComponent := by rw [htag]; decide
    simp [completeWork, htag, hcur, hsn, this]
    exact fun h => absurd h (by decide)
  · intro wip htag hcur
    simp [completeWork, htag, hcur]
  · intro wip htag hcur
    have : wip.tag ≠ HostComponent := by rw [htag]; decide
    simp [completeWork, htag, hcur, this]
    exact fun h => absurd h (by decide)

/-- Witness for C5 at concrete nodes: an updated host element with a changed
ref, an updated text node with changed content, and freshly mounted host and
text nodes. -/
theorem C5_amended_witness :
    completeWork
        { tag := HostComponent, typ := 3, pendingProps := 9, pendingContent := none
          ref := some 1, stateNode := true
          current := some { memoizedPropsContent := none, memoizedProps := some 9, ref := none } } =
      { addedFlags := RFlags.UpdateF ||| RFlags.RefF, createdInstance := false } ∧
      completeWork
          { tag := HostText, typ := 0, pendingProps := 0, pendingContent := some "b"
            ref := none, stateNode := true
            current := some { memoizedPropsContent := some "a", memoizedProps := none, ref := none } } =
        { addedFlags := RFlags.UpdateF, createdInstance := false } ∧
      completeWork
          { tag := HostComponent, typ := 3, pendingProps := 9, pendingContent := none
            ref := none, stateNode := false, current := none } =
        { addedFlags := RFlags.NoFlags, createdInstance := true } ∧
      completeWork
          { tag := HostText, typ := 0, pendingProps := 0, pendingContent := some "a"
            ref := none, stateNode := false, current := none } =
        { addedFlags := RFlags.NoFlags, createdInstance := true } := by
  refine ⟨?_, ?_, ?_, ?_⟩
  · exact (C5_amended_complete_work_flags.1 _
      { memoizedPropsContent := none, memoizedProps := some 9, ref := none } rfl rfl rfl).trans
      (by decide)
  · exact (C5_amended_complete_work_flags.2.1 _
      { memoizedPropsContent := some "a", memoizedProps := none, ref := none } rfl rfl rfl).trans
      (by decide)
  · exact (C5_amended_complete_work_flags.2.2.1 _ rfl rfl).trans (by decide)
  · exact (C5_amended_complete_work_flags.2.2.2 _ rfl rfl).trans (by decide)

end ClaimC5

section ClaimC6

open WL

theorem bool_imp_refl : ∀ a : Bool, (!a || a) = true := by decide

theorem bool_imp_trans :
    ∀ a b c : Bool, (!a || b) = true → (!b || c) = true → (!a || c) = true := by decide

theorem bool_imp_or :
    ∀ a a2 b b2 : Bool,
      (!a || a2) = true → (!b || b2) = true → (!(a || b) || (a2 || b2)) = true := by decide

theorem bool_imp_false : ∀ a b : Bool, (!a || b) = true → b = false → a = false := by decide

/-- `FlagsR.le` unpacked into its six field implications. -/
theorem FlagsR_le_iff {a b : FlagsR} :
    FlagsR.le a b = true ↔
      ((!a.placement || b.placement) = true ∧ (!a.update || b.update) = true ∧
        (!a.childDeletion || b.childDeletion) = true ∧
        (!a.passiveEffect || b.passiveEffect) = true ∧
        (!a.ref || b.ref) = true ∧ (!a.visibility || b.visibility) = true) := by
  simp [FlagsR.le, Bool.and_eq_true, and_assoc]

theorem FlagsR_le_refl (a : FlagsR) : FlagsR.le a a = true := by
  rw [FlagsR_le_iff]
  exact ⟨bool_imp_refl _, bool_imp_refl _, bool_imp_refl _, bool_imp_refl _,
    bool_imp_refl _, bool_imp_refl _⟩

theorem FlagsR_le_trans {a b c : FlagsR} (hab : FlagsR.le a b = true)
    (hbc : FlagsR.le b c = true) : FlagsR.le a c = true := by
  rw [FlagsR_le_iff] at *
  obtain ⟨h1, h2, h3, h4, h5, h6⟩ := hab
  obtain ⟨g1, g2, g3, g4, g5, g6⟩ := hbc
  exact ⟨bool_imp_trans _ _ _ h1 g1, bool_imp_trans _ _ _ h2 g2,
    bool_imp_trans _ _ _ h3 g3, bool_imp_trans _ _ _ h4 g4,
    bool_imp_trans _ _ _ h5 g5, bool_imp_trans _ _ _ h6 g6⟩

theorem FlagsR_or_mono {a a2 b b2 : FlagsR} (ha : FlagsR.le a a2 = true)
    (hb : FlagsR.le b b2 = true) : FlagsR.le (a.or b) (a2.or b2) = true := by
  rw [FlagsR_le_iff] at *
  obtain ⟨h1, h2, h3, h4, h5, h6⟩ := ha
  obtain ⟨g1, g2, g3, g4, g5, g6⟩ := hb
  exact ⟨bool_imp_or _ _ _ _ h1 g1, bool_imp_or _ _ _ _ h2 g2,
    bool_imp_or _ _ _ _ h3 g3, bool_imp_or _ _ _ _ h4 g4,
    bool_imp_or _ _ _ _ h5 g5, bool_imp_or _ _ _ _ h6 g6⟩

theorem mutMaskHit_mono {a b : FlagsR} (h : FlagsR.le a b = true)
    (hb : mutMaskHit b = false) : mutMaskHit a = false := by
  rw [FlagsR_le_iff] at h
  obtain ⟨h1, h2, h3, h4, h5, h6⟩ := h
  simp only [mutMaskHit, Bool.or_eq_false_iff] at hb ⊢
  obtain ⟨⟨⟨⟨⟨b1, b2⟩, b3⟩, b4⟩, b5⟩, b6⟩ := hb
  exact ⟨⟨⟨⟨⟨bool_imp_false _ _ h1 b1, bool_imp_false _ _ h2 b2⟩,
    bool_imp_false _ _ h3 b3⟩, bool_imp_false _ _ h5 b4⟩,
    bool_imp_false _ _ h6 b5⟩, bool_imp_false _ _ h4 b6⟩

theorem layoutMaskHit_mono {a b : FlagsR} (h : FlagsR.le a b = true)
    (hb : layoutMaskHit b = false) : layoutMaskHit a = false := by
  rw [FlagsR_le_iff] at h
  obtain ⟨-, -, -, -, h5, -⟩ := h
  exact bool_imp_false _ _ h5 hb

theorem mutMaskHit_false_eq_zero {f : FlagsR} (h : mutMaskHit f = false) :
    f = FlagsR.zero := by
  rcases f with ⟨p, u, cd, pe, r, v⟩
  simp only [mutMaskHit, Bool.or_eq_false_iff] at h
  obtain ⟨⟨⟨⟨⟨h1, h2⟩, h3⟩, h4⟩, h5⟩, h6⟩ := h
  simp only [FlagsR.zero]
  simp_all

theorem FlagsR_le_or_left (a b : FlagsR) : FlagsR.le a (a.or b) = true := by
  rw [FlagsR_le_iff]
  refine ⟨?_, ?_, ?_, ?_, ?_, ?_⟩ <;>
    exact (by decide : ∀ x y : Bool, (!x || (x || y)) = true) _ _

theorem FlagsR_le_or_right (a b : FlagsR) : FlagsR.le b (a.or b) = true := by
  rw [FlagsR_le_iff]
  refine ⟨?_, ?_, ?_, ?_, ?_, ?_⟩ <;>
    exact (by decide : ∀ x y : Bool, (!y || (x || y)) = true) _ _

/-- A chain whose bubbled union has no mutation-phase bit, under valid
subtree summaries, carries no flags at all (the six fields of `FlagsR` are
all covered by `MutationMask | PassiveMask`). -/
theorem zero_under_mut :
    ∀ t, SummOk t = true → mutMaskHit (bubbleChain t) = false → allFlagsZero t = true := by
  intro t
  induction t with
  | nilF => intro _ _; rfl
  | node d c s ihc ihs =>
    intro hs hm
    simp only [SummOk, Bool.and_eq_true] at hs
    obtain ⟨⟨hle, hsc⟩, hss⟩ := hs
    simp only [bubbleChain] at hm
    have hfs : mutMaskHit (d.flags.or d.subtreeFlags) = false :=
      mutMaskHit_mono (FlagsR_le_or_left _ _) hm
    have hbs : mutMaskHit (bubbleChain s) = false :=
      mutMaskHit_mono (FlagsR_le_or_right _ _) hm
    have hf : mutMaskHit d.flags = false := mutMaskHit_mono (FlagsR_le_or_left _ _) hfs
    have hsub : mutMaskHit d.subtreeFlags = false :=
      mutMaskHit_mono (FlagsR_le_or_right _ _) hfs
    have hbc : mutMaskHit (bubbleChain c) = false := mutMaskHit_mono hle hsub
    have hz := mutMaskHit_false_eq_zero hf
    simp only [allFlagsZero, Bool.and_eq_true]
    exact ⟨⟨by simp [hz], ihc hsc hbc⟩, ihs hss hbs⟩

/-- Like `zero_under_mut` for the layout sub-phase: under valid summaries
and an already-mutation-committed shape, a chain whose bubbled union has no
`Ref` bit carries no flags. -/
theorem zero_under_layout :
    ∀ t, SummOk t = true → RefOnlyShape t = true →
      layoutMaskHit (bubbleChain t) = false → allFlagsZero t = true := by
  intro t
  induction t with
  | nilF => intro _ _ _; rfl
  | node d c s ihc ihs =>
    intro hs hr hm
    simp only [SummOk, Bool.and_eq_true] at hs
    obtain ⟨⟨hle, hsc⟩, hss⟩ := hs
    simp only [RefOnlyShape, Bool.and_eq_true] at hr
    obtain ⟨⟨⟨⟨⟨⟨⟨hp, hu⟩, hcd⟩, hpe⟩, hv⟩, -⟩, hrc⟩, hrs⟩ := hr
    simp only [bubbleChain] at hm
    have hfs : layoutMaskHit (d.flags.or d.subtreeFlags) = false :=
      layoutMaskHit_mono (FlagsR_le_or_left _ _) hm
    have hbs : layoutMaskHit (bubbleChain s) = false :=
      layoutMaskHit_mono (FlagsR_le_or_right _ _) hm
    have hf : layoutMaskHit d.flags = false := layoutMaskHit_mono (FlagsR_le_or_left _ _) hfs
    have hsub : layoutMaskHit d.subtreeFlags = false :=
      layoutMaskHit_mono (FlagsR_le_or_right _ _) hfs
    have hbc : layoutMaskHit (bubbleChain c) = false := layoutMaskHit_mono hle hsub
    have hz : d.flags = FlagsR.zero := by
      rcases hfd : d.flags with ⟨p, u, cd, pe, r, v⟩
      rw [hfd] at hp hu hcd hpe hv hf
      simp only [Bool.not_eq_true'] at hp hu hcd hpe hv
      simp only [layoutMaskHit] at hf
      simp [FlagsR.zero, hp, hu, hcd, hpe, hv, hf]
    simp only [allFlagsZero, Bool.and_eq_true]
    exact ⟨⟨by simp [hz], ihc hsc hrc hbc⟩, ihs hss hrs hbs⟩

theorem allFlagsZero_refOnly : ∀ t, allFlagsZero t = true → RefOnlyShape t = true := by
  intro t
  induction t with
  | nilF => intro _; rfl
  | node d c s ihc ihs =>
    intro h
    simp only [allFlagsZero, Bool.and_eq_true, beq_iff_eq] at h
    obtain ⟨⟨hz, hc⟩, hs⟩ := h
    simp only [RefOnlyShape, Bool.and_eq_true]
    rw [hz]
    exact ⟨⟨⟨⟨⟨⟨⟨rfl, rfl⟩, rfl⟩, rfl⟩, rfl⟩, by simp [FlagsR.zero]⟩, ihc hc⟩, ihs hs⟩

theorem mutOnFiber_data (d : FibData) :
    (mutOnFiber d).2 =
      { d with flags :=
          { d.flags with placement := false, update := false, childDeletion := false
                         passiveEffect := false } } := by
  simp only [mutOnFiber]

theorem mutOnFiber_flags_le (d : FibData) :
    FlagsR.le (mutOnFiber d).2.flags d.flags = true := by
  rw [mutOnFiber_data, FlagsR_le_iff]
  refine ⟨by simp, by simp, by simp, by simp, ?_, ?_⟩ <;> exact bool_imp_refl _

/-- The mutation sub-phase: under valid summaries and the mount flag shape it
returns a tree with valid summaries, at most `Ref` flags (on host
components), and a bubbled union below the input's. -/
theorem mutWalk_spec :
    ∀ t, SummOk t = true → MountShape t = true →
      SummOk (mutWalk t).2 = true ∧ RefOnlyShape (mutWalk t).2 = true ∧
        FlagsR.le (bubbleChain (mutWalk t).2) (bubbleChain t) = true := by
  intro t
  induction t with
  | nilF => exact fun _ _ => ⟨rfl, rfl, FlagsR_le_refl _⟩
  | node d c s ihc ihs =>
    intro hs hm
    simp only [SummOk, Bool.and_eq_true] at hs
    obtain ⟨⟨hle, hsc⟩, hss⟩ := hs
    simp only [MountShape, Bool.and_eq_true] at hm
    obtain ⟨⟨⟨⟨⟨⟨hu, hcd⟩, hpe⟩, hv⟩, href⟩, hmc⟩, hms⟩ := hm
    obtain ⟨ssc, rsc, lsc⟩ := ihc hsc hmc
    obtain ⟨sss, rss, lss⟩ := ihs hss hms
    simp only [mutWalk]
    split
    · refine ⟨?_, ?_, ?_⟩
      · simp only [SummOk, Bool.and_eq_true]
        refine ⟨⟨?_, ssc⟩, sss⟩
        rw [mutOnFiber_data]
        exact FlagsR_le_trans lsc hle
      · simp only [RefOnlyShape, Bool.and_eq_true]
        refine ⟨⟨⟨⟨⟨⟨⟨?_, ?_⟩, ?_⟩, ?_⟩, ?_⟩, ?_⟩, rsc⟩, rss⟩ <;>
          rw [mutOnFiber_data]
        · rfl
        · rfl
        · rfl
        · rfl
        · exact hv
        · exact href
      · simp only [bubbleChain]
        refine FlagsR_or_mono (FlagsR_or_mono (mutOnFiber_flags_le d) ?_) lss
        rw [mutOnFiber_data]
        exact FlagsR_le_refl _
    · rename_i hcond
      have hcases : c = FibT.nilF ∨ mutMaskHit d.subtreeFlags = false := by
        by_cases hc : c = FibT.nilF
        · exact Or.inl hc
        · right
          cases hb : mutMaskHit d.subtreeFlags with
          | false => rfl
          | true => exact absurd (by simp [hb, hc]) hcond
      have hroc : RefOnlyShape c = true := by
        rcases hcases with hc | hmf
        · rw [hc]; rfl
        · exact allFlagsZero_refOnly c (zero_under_mut c hsc (mutMaskHit_mono hle hmf))
      refine ⟨?_, ?_, ?_⟩
      · simp only [SummOk, Bool.and_eq_true]
        refine ⟨⟨?_, hsc⟩, sss⟩
        rw [mutOnFiber_data]
        exact hle
      · simp only [RefOnlyShape, Bool.and_eq_true]
        refine ⟨⟨⟨⟨⟨⟨⟨?_, ?_⟩, ?_⟩, ?_⟩, ?_⟩, ?_⟩, hroc⟩, rss⟩ <;>
          rw [mutOnFiber_data]
        · rfl
        · rfl
        · rfl
        · rfl
        · exact hv
        · exact href
      · simp only [bubbleChain]
        refine FlagsR_or_mono (FlagsR_or_mono (mutOnFiber_flags_le d) ?_) lss
        rw [mutOnFiber_data]
        exact FlagsR_le_refl _

/-- The layout sub-phase clears the remaining `Ref` flags: on a
mutation-committed tree with valid summaries every flag ends cleared. -/
theorem layoutWalk_zero :
    ∀ t, SummOk t = true → RefOnlyShape t = true → allFlagsZero (layoutWalk t) = true := by
  intro t
  induction t with
  | nilF => exact fun _ _ => rfl
  | node d c s ihc ihs =>
    intro hs hr
    simp only [SummOk, Bool.and_eq_true] at hs
    obtain ⟨⟨hle, hsc⟩, hss⟩ := hs
    simp only [RefOnlyShape, Bool.and_eq_true] at hr
    obtain ⟨⟨⟨⟨⟨⟨⟨hp, hu⟩, hcd⟩, hpe⟩, hv⟩, href⟩, hrc⟩, hrs⟩ := hr
    have hnode : (layoutOnFiber d).flags = FlagsR.zero := by
      simp only [Bool.not_eq_true'] at hp hu hcd hpe hv
      cases hb : d.flags.ref with
      | true =>
        have hhost : (d.tag == CF.HostComponent) = true := by
          rw [hb] at href
          simpa using href
        rcases hfd : d.flags with ⟨p, u, cd, pe, r, v⟩
        rw [hfd] at hp hu hcd hpe hv hb
        simp [layoutOnFiber, hfd, hb, hhost, FlagsR.zero, hp, hu, hcd, hpe, hv]
      | false =>
        rcases hfd : d.flags with ⟨p, u, cd, pe, r, v⟩
        rw [hfd] at hp hu hcd hpe hv hb
        simp [layoutOnFiber, hfd, hb, FlagsR.zero, hp, hu, hcd, hpe, hv]
        exact ⟨hp, hu, hcd, hpe, hb, hv⟩
    simp only [layoutWalk]
    split
    · simp only [allFlagsZero, Bool.and_eq_true]
      exact ⟨⟨by simp [hnode], ihc hsc hrc⟩, ihs hss hrs⟩
    · rename_i hcond
      have hcases : c = FibT.nilF ∨ layoutMaskHit d.subtreeFlags = false := by
        by_cases hc : c = FibT.nilF
        · exact Or.inl hc
        · right
          cases hb : layoutMaskHit d.subtreeFlags with
          | false => rfl
          | true => exact absurd (by simp [hb, hc]) hcond
      have hzc : allFlagsZero c = true := by
        rcases hcases with hc | hmf
        · rw [hc]; rfl
        · exact zero_under_layout c hsc hrc (layoutMaskHit_mono hle hmf)
      simp only [allFlagsZero, Bool.and_eq_true]
      exact ⟨⟨by simp [hnode], hzc⟩, ihs hss hrs⟩

/-- A tree with no flags set issues no host mutation during the mutation
sub-phase. -/
theorem mutWalk_no_events : ∀ t, allFlagsZero t = true → (mutWalk t).1 = [] := by
  intro t
  induction t with
  | nilF => exact fun _ => rfl
  | node d c s ihc ihs =>
    intro h
    simp only [allFlagsZero, Bool.and_eq_true, beq_iff_eq] at h
    obtain ⟨⟨hz, hc⟩, hs⟩ := h
    have hev : (mutOnFiber d).1 = [] := by
      simp [mutOnFiber, hz, FlagsR.zero]
    simp only [mutWalk]
    split
    · simp [hev, ihc hc, ihs hs]
    · simp [hev, ihs hs]

/-- A freshly mounted host tree has valid subtree summaries and the mount
flag shape. -/
theorem mountFib_ok :
    ∀ e, SummOk (mountFib e) = true ∧ MountShape (mountFib e) = true := by
  intro e
  induction e with
  | nilE => exact ⟨rfl, rfl⟩
  | elemE t p r c s ihc ihs =>
    refine ⟨?_, ?_⟩
    · simp only [mountFib, SummOk, Bool.and_eq_true]
      exact ⟨⟨FlagsR_le_refl _, ihc.1⟩, ihs.1⟩
    · simp only [mountFib, MountShape, Bool.and_eq_true]
      refine ⟨⟨⟨⟨⟨⟨rfl, rfl⟩, rfl⟩, rfl⟩, ?_⟩, ihc.2⟩, ihs.2⟩
      cases r <;> simp
  | textE str s ihs =>
    refine ⟨?_, ?_⟩
    · simp only [mountFib, SummOk, Bool.and_eq_true]
      exact ⟨⟨FlagsR_le_refl _, trivial⟩, ihs.1⟩
    · simp only [mountFib, MountShape, Bool.and_eq_true]
      exact ⟨⟨⟨⟨⟨⟨rfl, rfl⟩, rfl⟩, rfl⟩, by simp [FlagsR.zero]⟩, trivial⟩, ihs.2⟩

/-- `placeTopChain` only raises `Placement` bits on the top chain, which
neither summary validity nor the mount shape constrain. -/
theorem placeTopChain_ok :
    ∀ t, SummOk t = true → MountShape t = true →
      SummOk (placeTopChain t) = true ∧ MountShape (placeTopChain t) = true := by
  intro t
  induction t with
  | nilF => exact fun _ _ => ⟨rfl, rfl⟩
  | node d c s ihc ihs =>
    intro hs hm
    simp only [SummOk, Bool.and_eq_true] at hs
    obtain ⟨⟨hle, hsc⟩, hss⟩ := hs
    simp only [MountShape, Bool.and_eq_true] at hm
    obtain ⟨⟨⟨⟨⟨⟨hu, hcd⟩, hpe⟩, hv⟩, href⟩, hmc⟩, hms⟩ := hm
    obtain ⟨hss2, hms2⟩ := ihs hss hms
    constructor
    · simp only [placeTopChain, SummOk, Bool.and_eq_true]
      exact ⟨⟨hle, hsc⟩, hss2⟩
    · simp only [placeTopChain, MountShape, Bool.and_eq_true]
      exact ⟨⟨⟨⟨⟨⟨hu, hcd⟩, hpe⟩, hv⟩, href⟩, hmc⟩, hms2⟩

/-- After committing the mount render, every flag in the committed tree is
cleared (the mutation sub-phase clears `Placement`/`Update`/`ChildDeletion`/
`PassiveEffect`, the layout sub-phase clears `Ref`; when the commit guard
finds no mutation-phase bit at all, nothing was flagged to begin with). -/
theorem commit_mount_allFlagsZero :
    ∀ e, allFlagsZero ((commitRootModel (mountRootFinished e)).2) = true := by
  intro e
  obtain ⟨hsm, hmm⟩ := mountFib_ok e
  obtain ⟨hsp, hmp⟩ := placeTopChain_ok _ hsm hmm
  have hsum : SummOk (mountRootFinished e) = true := by
    simp only [mountRootFinished, SummOk, Bool.and_eq_true]
    exact ⟨⟨FlagsR_le_refl _, hsp⟩, trivial⟩
  have hshape : MountShape (mountRootFinished e) = true := by
    simp only [mountRootFinished, MountShape, Bool.and_eq_true]
    exact ⟨⟨⟨⟨⟨⟨rfl, rfl⟩, rfl⟩, rfl⟩, by simp [rootData, FlagsR.zero]⟩, hmp⟩, trivial⟩
  simp only [mountRootFinished, commitRootModel]
  split
  · obtain ⟨hs2, hr2, -⟩ := mutWalk_spec _ hsum hshape
    simp only [mountRootFinished] at hs2 hr2
    exact layoutWalk_zero _ hs2 hr2
  · rename_i hcond
    rw [Bool.or_eq_true, not_or] at hcond
    obtain ⟨hsub, -⟩ := hcond
    have hsubf : mutMaskHit (rootData (bubbleChain (placeTopChain (mountFib e)))).subtreeFlags
        = false := by
      cases hb : mutMaskHit (rootData (bubbleChain (placeTopChain (mountFib e)))).subtreeFlags
      · rfl
      · exact absurd hb hsub
    have hzc : allFlagsZero (placeTopChain (mountFib e)) = true := by
      refine zero_under_mut _ hsp ?_
      simpa [rootData] using hsubf
    simp only [allFlagsZero, Bool.and_eq_true]
    exact ⟨⟨by simp [rootData, FlagsR.zero], hzc⟩, trivial⟩

theorem allFlagsZero_rootChild :
    ∀ t, allFlagsZero t = true → allFlagsZero (rootChild t) = true := by
  intro t h
  cases t with
  | nilF => rfl
  | node d c s =>
    simp only [allFlagsZero, Bool.and_eq_true] at h
    exact h.1.2

theorem allFlagsZero_rerender :
    ∀ t, allFlagsZero t = true → allFlagsZero (rerenderSame t) = true := by
  intro t h
  cases t with
  | nilF => rfl
  | node d c s =>
    simp only [allFlagsZero, Bool.and_eq_true, beq_iff_eq] at h
    obtain ⟨⟨-, hc⟩, -⟩ := h
    simp only [rerenderSame, allFlagsZero, Bool.and_eq_true]
    exact ⟨⟨by simp [rootData], by simpa using hc⟩, trivial⟩

theorem commitRootModel_no_events :
    ∀ t, allFlagsZero t = true → (commitRootModel t).1 = [] := by
  intro t h
  cases t with
  | nilF => rfl
  | node d c s =>
    simp only [commitRootModel]
    split
    · simpa using mutWalk_no_events _ h
    · rfl

/-- C6 (amended): for every host-element tree, mounting it, committing, and
re-rendering the identical element at the same lane bails out at the root
and produces a finished tree in which every node below the bailed-out root
has flags equal to `NoFlags`, and committing that finished tree issues zero
host-adapter mutation calls.  (The original claim additionally asserted
`subtreeFlags == NoFlags` below the bail-out point, which fails: the commit
phase clears `flags` but never `subtreeFlags`.) -/
theorem C6_amended_idempotent_rerender :
    ∀ e : HostElem,
      allFlagsZero (rootChild (rerenderSame (commitRootModel (mountRootFinished e)).2)) = true
        ∧ (commitRootModel (rerenderSame (commitRootModel (mountRootFinished e)).2)).1 = [] := by
  intro e
  have hz := commit_mount_allFlagsZero e
  have hz2 : allFlagsZero (rerenderSame (commitRootModel (mountRootFinished e)).2) = true :=
    allFlagsZero_rerender _ hz
  exact ⟨allFlagsZero_rootChild _ hz2, commitRootModel_no_events _ hz2⟩

/-- C6 counterexample to the claim as stated: mounting a `div` that contains
a ref-carrying `span` and re-rendering the identical element leaves the
reused `div` below the bailed-out root with `subtreeFlags` different from
`NoFlags` (the stale `Ref` summary of the mount render, never cleared by
commit), even though the second commit issues zero host mutations. -/
theorem C6_counterexample :
    topSubtreeFlags (rootChild Fixtures.c6finished2) ≠ FlagsR.zero
      ∧ (commitRootModel Fixtures.c6finished2).1 = [] := by
  constructor
  · decide
  · decide

end ClaimC6
section ClaimC2

open CF Fixtures

theorem mapGet_nil (k : KeyU) : mapGet [] k = none := rfl

theorem mapGet_cons (p : KeyU × FiberL) (m : EMap) (k : KeyU) :
    mapGet (p :: m) k = if p.1 = k then some p.2 else mapGet m k := by
  by_cases h : p.1 = k
  · simp [mapGet, List.find?_cons_of_pos, h]
  · simp [mapGet, List.find?_cons_of_neg, h]

theorem mapGet_delete_ne (m : EMap) (k k2 : KeyU) (h : k ≠ k2) :
    mapGet (mapDelete m k2) k = mapGet m k := by
  induction m with
  | nil => rfl
  | cons p m ih =>
    by_cases hp : p.1 = k2
    · rw [show mapDelete (p :: m) k2 = mapDelete m k2 by simp [mapDelete, hp]]
      rw [ih, mapGet_cons]
      rw [if_neg (by rw [hp]; exact fun hh => h hh.symm)]
    · rw [show mapDelete (p :: m) k2 = p :: mapDelete m k2 by simp [mapDelete, hp]]
      rw [mapGet_cons, mapGet_cons, ih]

theorem mem_of_mapGet (m : EMap) (k : KeyU) (f : FiberL) (h : mapGet m k = some f) :
    (k, f) ∈ m := by
  induction m with
  | nil => exact absurd h (by simp [mapGet_nil])
  | cons p m ih =>
    rw [mapGet_cons] at h
    split at h
    · rename_i hk
      have hpf : p.2 = f := by simpa using h
      rw [show p = (k, f) from Prod.ext hk hpf]
      exact List.mem_cons_self _ _
    · exact List.mem_cons_of_mem _ (ih h)

theorem mem_mapDelete (m : EMap) (k : KeyU) (p : KeyU × FiberL)
    (h : p ∈ mapDelete m k) : p ∈ m :=
  List.mem_of_mem_filter h

theorem keyOf_keyToUse (f : FiberL) (k : String) (h : keyToUseOfFiber f = Sum.inl k) :
    f.key = some k := by
  unfold keyToUseOfFiber at h
  cases hfk : f.key with
  | none => rw [hfk] at h; exact absurd h (by simp)
  | some k2 => rw [hfk] at h; simpa using h

theorem updateFromMap_key (m : EMap) (i : Nat) (e : ChildElem) (k : String)
    (hk : e.key = some k) (hk2 : k ≠ "")
    (hcons : ∀ p ∈ m, keyToUseOfFiber p.2 = p.1)
    (halt : ∀ p ∈ m, FiberL.alternate p.2 = none) :
    (updateFromMap m i e).1.key = some k := by
  simp only [updateFromMap, getElementKeyToUse, hk]
  cases hbef : mapGet m (Sum.inl k) with
  | none =>
    simp [createFiberFromElement, mkFiberNode, FiberL.key, FiberL.tag, FiberL.typ,
      FiberL.index, FiberL.pendingProps, FiberL.memoizedProps, FiberL.flags,
      FiberL.subtreeFlags, FiberL.lanes, FiberL.childLanes, FiberL.alternate, hk, hk2]
  | some b =>
    have hmem := mem_of_mapGet m _ b hbef
    have hbk : b.key = some k := keyOf_keyToUse b k (hcons _ hmem)
    have hba : b.alternate = none := halt _ hmem
    cases b with
    | mk tg ty ky ix pp mp fl sf ln cl al =>
      simp only [FiberL.alternate] at hba
      simp only [FiberL.key] at hbk
      subst hba
      subst hbk
      by_cases hty : FiberL.typ (FiberL.mk tg ty (some k) ix pp mp fl sf ln cl none) = e.typ
      · simp only [FiberL.typ] at hty
        simp [hty, useFiber, createWorkInProgress, FiberL.key, FiberL.tag, FiberL.typ,
          FiberL.index, FiberL.pendingProps, FiberL.memoizedProps, FiberL.flags,
          FiberL.subtreeFlags, FiberL.lanes, FiberL.childLanes, FiberL.alternate]
      · simp only [FiberL.typ] at hty
        simp [hty, createFiberFromElement, mkFiberNode, FiberL.key, FiberL.tag, FiberL.typ,
          FiberL.index, FiberL.pendingProps, FiberL.memoizedProps, FiberL.flags,
          FiberL.subtreeFlags, FiberL.lanes, FiberL.childLanes, FiberL.alternate, hk, hk2]

theorem updateFromMap_alt (m : EMap) (i : Nat) (e : ChildElem) (k : String)
    (hk : e.key = some k)
    (halt : ∀ p ∈ m, FiberL.alternate p.2 = none) :
    (updateFromMap m i e).1.alternate
      = (mapGet m (Sum.inl k)).bind (fun f => if f.typ = e.typ then some f else none) := by
  simp only [updateFromMap, getElementKeyToUse, hk]
  cases hbef : mapGet m (Sum.inl k) with
  | none =>
    simp [createFiberFromElement, mkFiberNode, FiberL.key, FiberL.tag, FiberL.typ,
      FiberL.index, FiberL.pendingProps, FiberL.memoizedProps, FiberL.flags,
      FiberL.subtreeFlags, FiberL.lanes, FiberL.childLanes, FiberL.alternate]
  | some b =>
    have hba : b.alternate = none := halt _ (mem_of_mapGet m _ b hbef)
    cases b with
    | mk tg ty ky ix pp mp fl sf ln cl al =>
      simp only [FiberL.alternate] at hba
      subst hba
      by_cases hty : FiberL.typ (FiberL.mk tg ty ky ix pp mp fl sf ln cl none) = e.typ
      · simp only [FiberL.typ] at hty
        simp [hty, useFiber, createWorkInProgress, FiberL.key, FiberL.tag, FiberL.typ,
          FiberL.index, FiberL.pendingProps, FiberL.memoizedProps, FiberL.flags,
          FiberL.subtreeFlags, FiberL.lanes, FiberL.childLanes, FiberL.alternate]
      · simp only [FiberL.typ] at hty
        simp [hty, createFiberFromElement, mkFiberNode, FiberL.key, FiberL.tag, FiberL.typ,
          FiberL.index, FiberL.pendingProps, FiberL.memoizedProps, FiberL.flags,
          FiberL.subtreeFlags, FiberL.lanes, FiberL.childLanes, FiberL.alternate]

theorem updateFromMap_mapGet (m : EMap) (i : Nat) (e : ChildElem) (k : String)
    (hk : e.key = some k) (k2 : KeyU) (hne : ¬ Sum.inl k = k2) :
    mapGet (updateFromMap m i e).2 k2 = mapGet m k2 := by
  simp only [updateFromMap, getElementKeyToUse, hk]
  cases hbef : mapGet m (Sum.inl k) with
  | none => rfl
  | some b =>
    cases b with
    | mk tg ty ky ix pp mp fl sf ln cl al =>
      by_cases hty : FiberL.typ (FiberL.mk tg ty ky ix pp mp fl sf ln cl al) = e.typ
      · simp only [FiberL.typ] at hty
        simp only [FiberL.typ, if_pos hty]
        exact mapGet_delete_ne m k2 (Sum.inl k) (fun hh => hne hh.symm)
      · simp only [FiberL.typ] at hty
        simp only [FiberL.typ, if_neg hty]

theorem updateFromMap_snd_mem (m : EMap) (i : Nat) (e : ChildElem)
    (p : KeyU × FiberL) (hp : p ∈ (updateFromMap m i e).2) : p ∈ m := by
  simp only [updateFromMap] at hp
  split at hp
  · split at hp
    · exact mem_mapDelete _ _ _ hp
    · exact hp
  · exact hp

theorem reconcileArrayLoop_cons (st : Bool) (m : EMap) (i lpi : Nat) (e : ChildElem)
    (rest : List ChildElem) :
    ∃ h lpi2,
      (reconcileArrayLoop st m i lpi (e :: rest)).1
          = h :: (reconcileArrayLoop st (updateFromMap m i e).2 (i + 1) lpi2 rest).1
        ∧ h.key = (updateFromMap m i e).1.key
        ∧ h.alternate = (updateFromMap m i e).1.alternate := by
  cases hr1 : (updateFromMap m i e).1 with
  | mk tg ty ky ix pp mp fl sf ln cl al =>
    cases st with
    | false =>
      refine ⟨FiberL.mk tg ty ky i pp mp fl sf ln cl al, lpi, ?_, ?_, ?_⟩
      · simp [reconcileArrayLoop, hr1, FiberL.tag, FiberL.typ, FiberL.key, FiberL.index,
          FiberL.pendingProps, FiberL.memoizedProps, FiberL.flags, FiberL.subtreeFlags,
          FiberL.lanes, FiberL.childLanes, FiberL.alternate]
      · simp [hr1, FiberL.key]
      · simp [hr1, FiberL.alternate]
    | true =>
      cases al with
      | none =>
        refine ⟨FiberL.mk tg ty ky i pp mp (fl ||| RFlags.Placement) sf ln cl none, lpi,
          ?_, ?_, ?_⟩
        · simp [reconcileArrayLoop, hr1, FiberL.tag, FiberL.typ, FiberL.key, FiberL.index,
            FiberL.pendingProps, FiberL.memoizedProps, FiberL.flags, FiberL.subtreeFlags,
            FiberL.lanes, FiberL.childLanes, FiberL.alternate]
        · simp [hr1, FiberL.key]
        · simp [hr1, FiberL.alternate]
      | some current =>
        cases current with
        | mk ctg cty cky cix cpp cmp cfl csf cln ccl cal =>
          by_cases hlt : cix < lpi
          · refine ⟨FiberL.mk tg ty ky i pp mp (fl ||| RFlags.Placement) sf ln cl
              (some (FiberL.mk ctg cty cky cix cpp cmp cfl csf cln ccl cal)), lpi,
              ?_, ?_, ?_⟩
            · simp [reconcileArrayLoop, hr1, hlt, FiberL.tag, FiberL.typ, FiberL.key,
                FiberL.index, FiberL.pendingProps, FiberL.memoizedProps, FiberL.flags,
                FiberL.subtreeFlags, FiberL.lanes, FiberL.childLanes, FiberL.alternate]
            · simp [hr1, FiberL.key]
            · simp [hr1, FiberL.alternate]
          · refine ⟨FiberL.mk tg ty ky i pp mp fl sf ln cl
              (some (FiberL.mk ctg cty cky cix cpp cmp cfl csf cln ccl cal)), cix,
              ?_, ?_, ?_⟩
            · simp [reconcileArrayLoop, hr1, hlt, FiberL.tag, FiberL.typ, FiberL.key,
                FiberL.index, FiberL.pendingProps, FiberL.memoizedProps, FiberL.flags,
                FiberL.subtreeFlags, FiberL.lanes, FiberL.childLanes, FiberL.alternate]
            · simp [hr1, FiberL.key]
            · simp [hr1, FiberL.alternate]

theorem reconcileArrayLoop_spec :
    ∀ (B : List ChildElem) (st : Bool) (m : EMap) (i lpi : Nat),
      (∀ p ∈ m, keyToUseOfFiber p.2 = p.1) →
      (∀ p ∈ m, FiberL.alternate p.2 = none) →
      (∀ b ∈ B, ∃ k, ChildElem.key b = some k ∧ k ≠ "") →
      (B.map ChildElem.key).Nodup →
      ((reconcileArrayLoop st m i lpi B).1.map FiberL.key = B.map ChildElem.key)
        ∧ (∀ j b kb, B.get? j = some b → ChildElem.key b = some kb →
            ((reconcileArrayLoop st m i lpi B).1.get? j).map FiberL.alternate
              = some ((mapGet m (Sum.inl kb)).bind
                  (fun f => if f.typ = b.typ then some f else none))) := by
  intro B
  induction B with
  | nil =>
    intro st m i lpi _ _ _ _
    exact ⟨rfl, by intro j b kb hj _; simp [reconcileArrayLoop] at hj⟩
  | cons e rest ih =>
    intro st m i lpi hcons halt hBk hnd
    obtain ⟨ke, hke, hke2⟩ := hBk e (List.mem_cons_self _ _)
    obtain ⟨h, lpi2, hsplit, hkey, haltn⟩ := reconcileArrayLoop_cons st m i lpi e rest
    have hk1 : (updateFromMap m i e).1.key = some ke :=
      updateFromMap_key m i e ke hke hke2 hcons halt
    have ha1 : (updateFromMap m i e).1.alternate
        = (mapGet m (Sum.inl ke)).bind (fun f => if f.typ = e.typ then some f else none) :=
      updateFromMap_alt m i e ke hke halt
    have hcons2 : ∀ p ∈ (updateFromMap m i e).2, keyToUseOfFiber p.2 = p.1 :=
      fun p hp => hcons p (updateFromMap_snd_mem m i e p hp)
    have halt2 : ∀ p ∈ (updateFromMap m i e).2, FiberL.alternate p.2 = none :=
      fun p hp => halt p (updateFromMap_snd_mem m i e p hp)
    have hBk2 : ∀ b ∈ rest, ∃ k, ChildElem.key b = some k ∧ k ≠ "" :=
      fun b hb => hBk b (List.mem_cons_of_mem _ hb)
    have hnd' := hnd
    rw [List.map_cons, List.nodup_cons] at hnd'
    have hnd2 : (rest.map ChildElem.key).Nodup := hnd'.2
    have hkeNotIn : some ke ∉ rest.map ChildElem.key := by
      have h3 := hnd'.1
      rw [hke] at h3
      exact h3
    obtain ⟨ih1, ih2⟩ := ih st (updateFromMap m i e).2 (i + 1) lpi2 hcons2 halt2 hBk2 hnd2
    constructor
    · rw [hsplit, List.map_cons, ih1, hkey, hk1, List.map_cons, hke]
    · intro j b kb hj hbk
      cases j with
      | zero =>
        obtain rfl : e = b := by simpa using hj
        have hkeq : kb = ke := by
          rw [hke] at hbk
          exact (Option.some.inj hbk).symm
        subst hkeq
        rw [hsplit]
        simp only [List.get?_cons_zero]
        rw [show Option.map FiberL.alternate (some h) = some (FiberL.alternate h) from rfl]
        rw [haltn, ha1]
      | succ j =>
        have hjr : rest.get? j = some b := by simpa using hj
        have hbm : b ∈ rest := List.get?_mem hjr
        have hkne : ¬ Sum.inl (β := Nat) kb = Sum.inl ke := by
          intro hh
          have : kb = ke := by simpa using hh
          subst this
          exact hkeNotIn (by
            rw [show some kb = ChildElem.key b from hbk.symm]
            exact List.mem_map_of_mem _ hbm)
        rw [hsplit]
        simp only [List.get?_cons_succ]
        rw [ih2 j b kb hjr hbk]
        rw [updateFromMap_mapGet m i e ke hke (Sum.inl kb) (fun hh => hkne hh.symm)]

theorem mapGet_append (m1 m2 : EMap) (k : KeyU) (h : mapGet m1 k = none) :
    mapGet (m1 ++ m2) k = mapGet m2 k := by
  induction m1 with
  | nil => rfl
  | cons p m ih =>
    rw [List.cons_append, mapGet_cons]
    rw [mapGet_cons] at h
    split at h
    · exact absurd h (by simp)
    · rename_i hne
      rw [if_neg hne]
      exact ih h

theorem mapSet_fresh (m : EMap) (k : KeyU) (v : FiberL) (h : mapGet m k = none) :
    mapSet m k v = m ++ [(k, v)] := by
  simp only [mapSet]
  rw [if_neg]
  intro hs
  obtain ⟨p, hp⟩ := Option.isSome_iff_exists.mp hs
  simp [mapGet, hp] at h

theorem foldl_mapSet_eq :
    ∀ (A : List FiberL) (m : EMap),
      (∀ a ∈ A, mapGet m (keyToUseOfFiber a) = none) →
      (A.map keyToUseOfFiber).Nodup →
      A.foldl (fun acc c => mapSet acc (keyToUseOfFiber c) c) m
        = m ++ A.map (fun a => (keyToUseOfFiber a, a)) := by
  intro A
  induction A with
  | nil => intro m _ _; simp
  | cons a A ih =>
    intro m hfresh hnd
    rw [List.map_cons, List.nodup_cons] at hnd
    rw [List.foldl_cons, mapSet_fresh m _ a (hfresh a (List.mem_cons_self _ _))]
    rw [ih (m ++ [(keyToUseOfFiber a, a)]) ?fr hnd.2]
    · simp
    case fr =>
      intro a2 ha2
      rw [mapGet_append _ _ _ (hfresh a2 (List.mem_cons_of_mem _ ha2))]
      rw [mapGet_cons, if_neg, mapGet_nil]
      intro hh
      have hh2 : keyToUseOfFiber a = keyToUseOfFiber a2 := hh
      exact hnd.1 (hh2 ▸ List.mem_map_of_mem keyToUseOfFiber ha2)

theorem buildExistingChildren_spec (A : List FiberL)
    (hnd : (A.map keyToUseOfFiber).Nodup) :
    buildExistingChildren A = A.map (fun a => (keyToUseOfFiber a, a)) := by
  unfold buildExistingChildren
  rw [foldl_mapSet_eq A [] (fun a _ => rfl) hnd]
  simp

theorem mapGet_pairs :
    ∀ (A : List FiberL) (a : FiberL), (A.map keyToUseOfFiber).Nodup → a ∈ A →
      mapGet (A.map fun x => (keyToUseOfFiber x, x)) (keyToUseOfFiber a) = some a := by
  intro A
  induction A with
  | nil => intro a _ ha; exact absurd ha (by simp)
  | cons a2 A ih =>
    intro a hnd ha
    rw [List.map_cons, List.nodup_cons] at hnd
    rw [List.map_cons, mapGet_cons]
    rcases List.mem_cons.mp ha with rfl | haA
    · rw [if_pos rfl]
    · rw [if_neg, ih a hnd.2 haA]
      intro hh
      have hh2 : keyToUseOfFiber a2 = keyToUseOfFiber a := hh
      exact hnd.1 (hh2 ▸ List.mem_map_of_mem keyToUseOfFiber haA)

theorem nodup_keyToUse :
    ∀ (A : List FiberL), (∀ a ∈ A, ∃ k, FiberL.key a = some k ∧ k ≠ "") →
      (A.map FiberL.key).Nodup → (A.map keyToUseOfFiber).Nodup := by
  intro A
  induction A with
  | nil => intro _ _; simp
  | cons a A ih =>
    intro hkeys hnd
    rw [List.map_cons, List.nodup_cons] at hnd ⊢
    refine ⟨?_, ih (fun x hx => hkeys x (List.mem_cons_of_mem _ hx)) hnd.2⟩
    intro hmem
    obtain ⟨a2, ha2, hkk⟩ := List.mem_map.mp hmem
    obtain ⟨k, hk, -⟩ := hkeys a (List.mem_cons_self _ _)
    obtain ⟨k2, hk2, -⟩ := hkeys a2 (List.mem_cons_of_mem _ ha2)
    have hkk2 : k2 = k := by
      simp only [keyToUseOfFiber, hk, hk2] at hkk
      simpa using hkk
    exact hnd.1 (by
      rw [hk, show (some k : Option String) = FiberL.key a2 by rw [hk2, hkk2]]
      exact List.mem_map_of_mem FiberL.key ha2)

/-- C2 (amended): for keyed child arrays whose keys are unique, non-empty
strings, with every old fiber a current-tree node (`alternate = null`),
array reconciliation yields a chain whose key sequence equals the new
array's key sequence; a position whose key is carried by an old fiber of
the same element type reuses that fiber as its work-in-progress alternate;
and a position whose key has no type-matching old fiber is freshly created
(`alternate = null`). -/
theorem C2_amended_keyed_list_reconciliation :
    ∀ (st : Bool) (A : List FiberL) (B : List ChildElem),
      (∀ a ∈ A, ∃ k, FiberL.key a = some k ∧ k ≠ "") →
      (∀ a ∈ A, FiberL.alternate a = none) →
      ((A.map FiberL.key).Nodup) →
      (∀ b ∈ B, ∃ k, ChildElem.key b = some k ∧ k ≠ "") →
      ((B.map ChildElem.key).Nodup) →
      ((reconcileChildrenArray st A B).1.map FiberL.key = B.map ChildElem.key)
        ∧ (∀ j b a, B.get? j = some b → a ∈ A → FiberL.key a = ChildElem.key b →
            FiberL.typ a = ChildElem.typ b →
            ((reconcileChildrenArray st A B).1.get? j).map FiberL.alternate
              = some (some a))
        ∧ (∀ j b, B.get? j = some b →
            (∀ a ∈ A, FiberL.key a = ChildElem.key b → ¬ FiberL.typ a = ChildElem.typ b) →
            ((reconcileChildrenArray st A B).1.get? j).map FiberL.alternate = some none) := by
  intro st A B hAk hAalt hAnd hBk hBnd
  have hndK : (A.map keyToUseOfFiber).Nodup := nodup_keyToUse A hAk hAnd
  have hbuild : buildExistingChildren A = A.map (fun a => (keyToUseOfFiber a, a)) :=
    buildExistingChildren_spec A hndK
  have hcons : ∀ p ∈ buildExistingChildren A, keyToUseOfFiber p.2 = p.1 := by
    rw [hbuild]
    intro p hp
    obtain ⟨a, -, rfl⟩ := List.mem_map.mp hp
    rfl
  have halt : ∀ p ∈ buildExistingChildren A, FiberL.alternate p.2 = none := by
    rw [hbuild]
    intro p hp
    obtain ⟨a, ha, rfl⟩ := List.mem_map.mp hp
    exact hAalt a ha
  obtain ⟨h1, h2⟩ :=
    reconcileArrayLoop_spec B st (buildExistingChildren A) 0 0 hcons halt hBk hBnd
  have hre : (reconcileChildrenArray st A B).1
      = (reconcileArrayLoop st (buildExistingChildren A) 0 0 B).1 := rfl
  refine ⟨by rw [hre]; exact h1, ?_, ?_⟩
  · intro j b a hj ha hkeyeq htyeq
    obtain ⟨kb, hkb, -⟩ := hBk b (List.get?_mem hj)
    rw [hre, h2 j b kb hj hkb]
    have hak : FiberL.key a = some kb := by rw [hkeyeq, hkb]
    have hka : keyToUseOfFiber a = Sum.inl kb := by simp [keyToUseOfFiber, hak]
    have hget : mapGet (buildExistingChildren A) (Sum.inl kb) = some a := by
      rw [hbuild, ← hka]
      exact mapGet_pairs A a hndK ha
    rw [hget]
    rw [show (some a).bind (fun f => if f.typ = b.typ then some f else none)
        = if FiberL.typ a = ChildElem.typ b then some a else none from rfl]
    rw [if_pos htyeq]
  · intro j b hj hnone
    obtain ⟨kb, hkb, -⟩ := hBk b (List.get?_mem hj)
    rw [hre, h2 j b kb hj hkb]
    cases hget : mapGet (buildExistingChildren A) (Sum.inl kb) with
    | none => rfl
    | some f0 =>
      have hmem : (Sum.inl kb, f0) ∈ buildExistingChildren A := mem_of_mapGet _ _ _ hget
      rw [hbuild] at hmem
      obtain ⟨a, ha, heq⟩ := List.mem_map.mp hmem
      have ha2 : a = f0 := congrArg Prod.snd heq
      have hku : keyToUseOfFiber a = Sum.inl kb := congrArg Prod.fst heq
      have hak : FiberL.key a = some kb := keyOf_keyToUse a kb hku
      have hty := hnone a ha (by rw [hak, hkb])
      subst ha2
      rw [show (some a).bind (fun f => if f.typ = b.typ then some f else none)
          = if FiberL.typ a = ChildElem.typ b then some a else none from rfl]
      rw [if_neg hty]

/-- C2 counterexample to the claim as stated: an old child with key "a" and
a new element with the same key but a different `type` yields a recreated
node (`alternate` is null) rather than the same work-node identity; and an
element keyed by the empty string produces a fiber whose key is null (the
constructor's `key || null`), so the chain's key sequence differs from the
new array's. -/
theorem C2_counterexample :
    ((reconcileChildrenArray true [c2old] [c2newElem]).1.map
        (fun f => (FiberL.key f, (FiberL.alternate f).isNone)) = [(some "a", true)])
      ∧ c2old.key = some "a" ∧ c2newElem.key = some "a"
      ∧ ((reconcileChildrenArray true [] [c2emptyKeyElem]).1.map FiberL.key = [none])
      ∧ c2emptyKeyElem.key = some "" := by
  refine ⟨?_, rfl, rfl, ?_, rfl⟩
  · decide
  · decide

/-- Witness: the amended theorem applied to the one-element arrays of the
fixtures, with every hypothesis discharged on concrete values. -/
theorem C2_amended_witness :
    ((reconcileChildrenArray true [c2old] [c2newSame]).1.map FiberL.key = [some "a"])
      ∧ ((reconcileChildrenArray true [c2old] [c2newSame]).1.get? 0).map FiberL.alternate
          = some (some c2old) := by
  have h := C2_amended_keyed_list_reconciliation true [c2old] [c2newSame]
    (by
      intro a ha
      rw [List.mem_singleton] at ha
      subst ha
      exact ⟨"a", rfl, by decide⟩)
    (by
      intro a ha
      rw [List.mem_singleton] at ha
      subst ha
      rfl)
    (by simp)
    (by
      intro b hb
      rw [List.mem_singleton] at hb
      subst hb
      exact ⟨"a", rfl, by decide⟩)
    (by simp)
  exact ⟨h.1, h.2.1 0 c2newSame c2old rfl (List.mem_singleton.mpr rfl) rfl rfl⟩

end ClaimC2
